import Mathlib

/-!
Shallow embedding of the Medical Bill Verification extraction core:
`app/extraction/bill_extractor.py` and the grouping stage of
`app/ocr/paddle_engine.py`.

Conventions of the embedding:
* Python floats (y coordinates, heights, monetary amounts) are modelled as
  exact rationals `ℚ`.
* Python's regular-expression searches are modelled by bespoke executable
  matchers over `List Char`, one per pattern of the source, carefully
  following `re.search` (leftmost match, greedy with backtracking)
  semantics for the specific patterns used.
* Python's stable `list.sort` / `sorted` are modelled by a stable insertion
  sort `ssort` (stable sorts agree extensionally for a total preorder).
* `hashlib.sha1(...).hexdigest()` (an external library, not part of this
  repository) is modelled as an injective function of the payload string.
* Dictionaries with string keys are modelled as association lists in
  insertion order (Python 3.7+ dict semantics).
-/

namespace MedBill

/-! ## Character classes (ASCII models of Python `re` classes) -/

def isWsChar (c : Char) : Bool :=
  c = ' ' || c = '\t' || c = '\n' || c = '\r' || c = '\x0b' || c = '\x0c'

def isDigitChar (c : Char) : Bool := '0' ≤ c && c ≤ '9'

def isAlphaChar (c : Char) : Bool := ('A' ≤ c && c ≤ 'Z') || ('a' ≤ c && c ≤ 'z')

/-- `\w` word characters. -/
def isWordChar (c : Char) : Bool := isAlphaChar c || isDigitChar c || c = '_'

/-- `[A-Z0-9]` (the inputs to these matchers are upper-cased first). -/
def isUpperAlnum (c : Char) : Bool := ('A' ≤ c && c ≤ 'Z') || isDigitChar c

/-- `[\d,]` digit-or-comma class of the amount patterns. -/
def isDigitComma (c : Char) : Bool := isDigitChar c || c = ','

/-! ## Python string primitives

Modelled over `List Char` (Lean's own `String.toUpper`, `trim`, ... do not
reduce well; these do, and agree with them on the ASCII inputs of this
program). -/

def pyUpper (s : String) : String := String.mk (s.data.map Char.toUpper)

def pyLower (s : String) : String := String.mk (s.data.map Char.toLower)

/-- Python `str.strip()`. -/
def trimChars (cs : List Char) : List Char :=
  ((cs.dropWhile isWsChar).reverse.dropWhile isWsChar).reverse

def pyStrip (s : String) : String := String.mk (trimChars s.data)

/-! ## Exact-rational models of Python float operations

All arithmetic goes through `mkRat` so that terms built by the embedding
evaluate by kernel reduction; the `..._eq` bridge lemmas below relate them
to Mathlib's field operations for proving. -/

def qAdd (a b : ℚ) : ℚ := mkRat (a.num * b.den + b.num * a.den) (a.den * b.den)

def qSub (a b : ℚ) : ℚ := mkRat (a.num * b.den - b.num * a.den) (a.den * b.den)

def qMul (a b : ℚ) : ℚ := mkRat (a.num * b.num) (a.den * b.den)

def qDiv (a b : ℚ) : ℚ :=
  if b.num < 0 then mkRat (-(a.num * b.den)) (a.den * b.num.natAbs)
  else mkRat (a.num * b.den) (a.den * b.num.natAbs)

def qAbs (a : ℚ) : ℚ := if a.num < 0 then mkRat (-a.num) a.den else a

/-! ## Generic search helpers -/

/-- Word boundary `\b` holds before the current position given the previous
character (none at string start). -/
def wbBefore : Option Char → Bool
  | none => true
  | some c => !isWordChar c

/-- Word boundary `\b` holds at the start of the remaining suffix. -/
def notWordAhead : List Char → Bool
  | [] => true
  | c :: _ => !isWordChar c

/-- `re.search` position scan: try a positional matcher at every position,
threading the previous character for word-boundary tests. -/
def searchFrom (f : Option Char → List Char → Bool) : Option Char → List Char → Bool
  | prev, [] => f prev []
  | prev, c :: cs => f prev (c :: cs) || searchFrom f (some c) cs

/-- `re.search` position scan returning the first (leftmost) successful
match result. -/
def searchFromO (f : Option Char → List Char → Option α) :
    Option Char → List Char → Option α
  | prev, [] => f prev []
  | prev, c :: cs =>
    match f prev (c :: cs) with
    | some r => some r
    | none => searchFromO f (some c) cs

/-- Substring containment (Python `needle in hay`). -/
def listContainsSub (n : List Char) : List Char → Bool
  | [] => n.isPrefixOf ([] : List Char)
  | c :: cs => n.isPrefixOf (c :: cs) || listContainsSub n cs

def containsSub (needle hay : String) : Bool := listContainsSub needle.data hay.data

/-! ## Payment / receipt detection (source lines 28-52)

`PAYMENT_PATTERNS` of the source, one matcher per pattern, applied to the
upper-cased text. -/

/-- `\bRCPO-[A-Z0-9]+\b` at the current position: boundary before, literal
`RCPO-`, then at least one `[A-Z0-9]` (the greedy run always ends at a word
boundary). -/
def matchRCPOAt (prev : Option Char) (s : List Char) : Bool :=
  wbBefore prev && "RCPO-".data.isPrefixOf s &&
    (match s.drop 5 with
     | c :: _ => isUpperAlnum c
     | [] => false)

def searchRCPO (t : String) : Bool := searchFrom matchRCPOAt none t.data

/-- Pattern `\bRCPT` then an optional separator (dash, slash or colon) then
`[A-Z0-9]+\b`, at the current position. -/
def matchRCPTAt (prev : Option Char) (s : List Char) : Bool :=
  wbBefore prev && "RCPT".data.isPrefixOf s &&
    (match s.drop 4 with
     | [] => false
     | c :: rest =>
       isUpperAlnum c ||
         ((c = '-' || c = '/' || c = ':') &&
           (match rest with
            | d :: _ => isUpperAlnum d
            | [] => false)))

def searchRCPT (t : String) : Bool := searchFrom matchRCPTAt none t.data

/-- `\bWORD\b` at the current position. -/
def matchWordAt (w : List Char) (prev : Option Char) (s : List Char) : Bool :=
  wbBefore prev && w.isPrefixOf s && notWordAhead (s.drop w.length)

def searchWord (w : String) (t : String) : Bool :=
  searchFrom (matchWordAt w.data) none t.data

def searchAnyWord (ws : List String) (t : String) : Bool :=
  ws.any (fun w => searchWord w t)

/-- `\bNET\s*BANKING\b` at the current position (part of the payment-mode
alternation). -/
def matchNetBankingAt (prev : Option Char) (s : List Char) : Bool :=
  wbBefore prev && "NET".data.isPrefixOf s &&
    (let r := (s.drop 3).dropWhile isWsChar
     "BANKING".data.isPrefixOf r && notWordAhead (r.drop 7))

def searchNetBanking (t : String) : Bool := searchFrom matchNetBankingAt none t.data

/-- `is_paymentish` (source lines 37-39): upper-case the text and search for
any of the five `PAYMENT_PATTERNS`. -/
def is_paymentish (text : String) : Bool :=
  let t := pyUpper text
  searchRCPO t || searchRCPT t ||
    searchAnyWord ["UTR", "RRN", "TXN", "TRANSACTION"] t ||
    searchAnyWord ["PAYMENT", "PAID", "RECEIPT"] t ||
    (searchAnyWord ["CASH", "CARD", "UPI"] t || searchNetBanking t)

/-! ## Reference extraction (source lines 42-52) -/

/-- Leftmost `\bRCPO-[A-Z0-9]+\b` match, returning `m.group(0)` (the greedy
run of `[A-Z0-9]` after `RCPO-`). -/
def refRCPOAt (prev : Option Char) (s : List Char) : Option String :=
  if wbBefore prev && "RCPO-".data.isPrefixOf s then
    let run := (s.drop 5).takeWhile isUpperAlnum
    if run = [] then none else some (String.mk ("RCPO-".data ++ run))
  else none

/-- Leftmost `\b(UTR|RRN|TXN)\s*[:#-]?\s*([A-Z0-9]{6,})\b` match, returning
`f"{group1}-{group2}"`.  The character classes of the gap (`\s`, `[:#-]`,
`[A-Z0-9]`) are disjoint, so the greedy scan is deterministic. -/
def refTxnAt (prev : Option Char) (s : List Char) : Option String :=
  if wbBefore prev then
    match ["UTR", "RRN", "TXN"].find? (fun k => k.data.isPrefixOf s) with
    | none => none
    | some kw =>
      let r1 := (s.drop 3).dropWhile isWsChar
      let r2 := match r1 with
        | c :: rest => if c = ':' || c = '#' || c = '-' then rest else r1
        | [] => r1
      let r3 := r2.dropWhile isWsChar
      let run := r3.takeWhile isUpperAlnum
      if 6 ≤ run.length then some (kw ++ "-" ++ String.mk run) else none
  else none

/-- `extract_reference` (source lines 42-52). -/
def extract_reference (text : String) : Option String :=
  if text = "" then none
  else
    let u := pyUpper text
    match searchFromO refRCPOAt none u.data with
    | some r => some r
    | none => searchFromO refTxnAt none u.data

/-! ## Amount extraction (source lines 58-76) -/

def digitVal (c : Char) : Nat := c.toNat - '0'.toNat

def natOfDigits (ds : List Char) : Nat := ds.foldl (fun n c => n * 10 + digitVal c) 0

/-- Second pattern `₹?\s*([\d,]+)\s*$` applied to the reversed stripped
characters: a non-empty trailing `[\d,]` run whose digits (commas removed by
the source's `.replace(",", "")`) must be non-empty for `float()` to
succeed. -/
def amountPat2 (rcs : List Char) : Option ℚ :=
  let run := rcs.takeWhile isDigitComma
  let ds := run.reverse.filter isDigitChar
  if run ≠ [] && ds ≠ [] then some ((natOfDigits ds : ℚ)) else none

/-- `extract_amount_from_text` (source lines 64-76).  First pattern
`₹?\s*([\d,]+\.\d{2})\s*$`: on the stripped text this requires the last two
characters to be digits, preceded by `.`, preceded by a non-empty `[\d,]`
run; the captured group is that maximal run (leftmost match start), commas
dropped, always a valid float.  Otherwise the second pattern is tried. -/
def extract_amount_from_text (text : String) : Option ℚ :=
  let rcs := (trimChars text.data).reverse
  match rcs with
  | d1 :: d2 :: '.' :: rest =>
    if isDigitChar d1 && isDigitChar d2 &&
        (match rest with
         | c :: _ => isDigitComma c
         | [] => false) then
      let run := rest.takeWhile isDigitComma
      let ds := run.reverse.filter isDigitChar
      some (qAdd (natOfDigits ds : ℚ) (qDiv ((digitVal d2 * 10 + digitVal d1 : Nat) : ℚ) 100))
    else amountPat2 rcs
  | _ => amountPat2 rcs

/-! ## Section detection (source lines 82-120) -/

/-- `SECTION_HEADERS` in source (insertion) order. -/
def SECTION_HEADERS : List (String × List String) :=
  [("medicines", ["medicine", "medicines", "drug", "drugs", "pharmacy"]),
   ("diagnostics_tests",
     ["diagnostic", "diagnostics", "investigation", "pathology", "laboratory",
      "lab", "non-lab", "non lab", "imaging"]),
   ("radiology", ["radiology", "x-ray", "xray", "ct", "mri", "ultrasound", "usg"]),
   ("consultation", ["consultation", "consult", "doctor fee", "physician"]),
   ("hospitalization",
     ["hospitalisation", "hospitalization", "room", "ward", "bed", "icu", "nursing"]),
   ("packages", ["package", "packages", "procedure package"]),
   ("administrative", ["administrative", "registration", "processing", "documentation"]),
   ("implants_devices", ["implant", "implants", "device", "devices", "stent", "pacemaker"]),
   ("surgical_consumables",
     ["consumable", "consumables", "surgical", "gloves", "syringe", "catheter"])]

/-- `re.search(r"[\d,]+\.\d{2}\s*$", t)` on the already-stripped lower-cased
text: the last two characters are digits, preceded by `.`, preceded by at
least one `[\d,]` character. -/
def endsWithAmount (t : String) : Bool :=
  match t.data.reverse with
  | d1 :: d2 :: '.' :: c :: _ => isDigitChar d1 && isDigitChar d2 && isDigitComma c
  | _ => false

/-- `detect_section_header` (source lines 105-120). -/
def detect_section_header (text : String) : Option String :=
  if text = "" then none
  else
    let t := pyStrip (pyLower text)
    if 80 < t.length then none
    else if endsWithAmount t then none
    else (SECTION_HEADERS.find? (fun sk => sk.2.any (fun k => containsSub k t))).map (·.1)

/-! ## Header field validation (source lines 126-167) -/

/-- `[A-Za-z]{2,}` search: two adjacent alphabetic characters exist. -/
def hasTwoAlpha : List Char → Bool
  | a :: b :: rest => (isAlphaChar a && isAlphaChar b) || hasTwoAlpha (b :: rest)
  | _ => false

/-- `\d{5,}` search: five consecutive digits exist. -/
def hasFiveDigits : List Char → Bool
  | a :: b :: c :: d :: e :: rest =>
    (isDigitChar a && isDigitChar b && isDigitChar c && isDigitChar d && isDigitChar e) ||
      hasFiveDigits (b :: c :: d :: e :: rest)
  | _ => false

/-- `^[A-Z]{2}\d{6,}` with `re.IGNORECASE`: anchored two letters then at
least six digits. -/
def anchoredAlpha2Digit6 (cs : List Char) : Bool :=
  match cs with
  | a :: b :: rest =>
    isAlphaChar a && isAlphaChar b &&
      ((rest.take 6).length = 6 && (rest.take 6).all isDigitChar)
  | _ => false

/-- `^\d{10,}$`: the whole string is digits, at least ten of them. -/
def allDigits10 (cs : List Char) : Bool :=
  10 ≤ cs.length && cs.all isDigitChar

def isDateSep (c : Char) : Bool := c = '-' || c = '/'

/-- Search for two digits, a date separator (dash or slash), two digits, a
separator, four digits. -/
def hasDateDMY : List Char → Bool
  | a :: b :: s1 :: c :: d :: s2 :: e :: f :: g :: h :: rest =>
    (isDigitChar a && isDigitChar b && isDateSep s1 && isDigitChar c && isDigitChar d &&
       isDateSep s2 && isDigitChar e && isDigitChar f && isDigitChar g && isDigitChar h) ||
      hasDateDMY (b :: s1 :: c :: d :: s2 :: e :: f :: g :: h :: rest)
  | _ => false

/-- Search for four digits, a date separator (dash or slash), two digits, a
separator, two digits. -/
def hasDateYMD : List Char → Bool
  | a :: b :: c :: d :: s1 :: e :: f :: s2 :: g :: h :: rest =>
    (isDigitChar a && isDigitChar b && isDigitChar c && isDigitChar d && isDateSep s1 &&
       isDigitChar e && isDigitChar f && isDateSep s2 && isDigitChar g && isDigitChar h) ||
      hasDateYMD (b :: c :: d :: s1 :: e :: f :: s2 :: g :: h :: rest)
  | _ => false

/-- `[A-Z]{2,}\d+` with `re.IGNORECASE` search: a match exists iff some digit
is directly preceded by two alphabetic characters. -/
def hasAlpha2ThenDigit : List Char → Bool
  | a :: b :: c :: rest =>
    (isAlphaChar a && isAlphaChar b && isDigitChar c) || hasAlpha2ThenDigit (b :: c :: rest)
  | _ => false

/-- Helper for `\d+[A-Z]+\d+`: after one alphabetic character, optionally
more, then a digit. -/
def alphasThenDigit : List Char → Bool
  | c :: rest => isDigitChar c || (isAlphaChar c && alphasThenDigit rest)
  | [] => false

/-- `\d+[A-Z]+\d+` with `re.IGNORECASE` search: a digit, then at least one
alphabetic character, then a digit. -/
def hasDigitAlphaDigit : List Char → Bool
  | d :: rest =>
    (isDigitChar d &&
      (match rest with
       | a :: rest2 => isAlphaChar a && alphasThenDigit rest2
       | [] => false)) || hasDigitAlphaDigit rest
  | [] => false

/-- `_validate` (source lines 148-167), with the `VALUE_VALIDATORS` rules
(source lines 126-145) inlined per field.  Unknown fields validate. -/
def _validate (field value : String) : Bool :=
  if pyStrip value = "" then false
  else
    let v := pyStrip value
    let cs := v.data
    if field = "patient_name" then
      decide (3 ≤ v.length) && decide (v.length ≤ 100) &&
        !anchoredAlpha2Digit6 cs && !allDigits10 cs && hasTwoAlpha cs
    else if field = "patient_mrn" then
      decide (5 ≤ v.length) && decide (v.length ≤ 20) && hasFiveDigits cs
    else if field = "billing_date" then
      decide (8 ≤ v.length) && decide (v.length ≤ 30) && (hasDateDMY cs || hasDateYMD cs)
    else if field = "bill_number" then
      decide (5 ≤ v.length) && decide (v.length ≤ 40) &&
        (hasAlpha2ThenDigit cs || hasDigitAlphaDigit cs)
    else true

/-! ## Stable sort

Python's `sorted` / `list.sort` are stable; they are modelled by a stable
insertion sort (any two stable sorts agree for a total preorder). -/

def sinsert (le : α → α → Bool) (a : α) : List α → List α
  | [] => [a]
  | b :: bs => if le a b then a :: b :: bs else b :: sinsert le a bs

def ssort (le : α → α → Bool) : List α → List α
  | [] => []
  | a :: rest => sinsert le a (ssort le rest)

/-- Python `min` over a non-empty sequence (ties keep the earlier value). -/
def qMin (a b : ℚ) : ℚ := if a ≤ b then a else b

def minListQ (x : ℚ) (xs : List ℚ) : ℚ := xs.foldl qMin x

/-! ## Header candidates and set-once locking (source lines 170-232) -/

structure Candidate where
  field : String
  value : String
  score : ℚ
  page : Int
deriving Repr, DecidableEq

def alookup {α : Type} : List (String × α) → String → Option α
  | [], _ => none
  | (k, v) :: rest, f => if k = f then some v else alookup rest f

/-- Python `dict` update: replace in place if the key exists, else append
(insertion order preserved). -/
def aset {α : Type} (m : List (String × α)) (k : String) (v : α) : List (String × α) :=
  if m.any (fun kv => kv.1 = k) then m.map (fun kv => if kv.1 = k then (k, v) else kv)
  else m ++ [(k, v)]

/-- `HeaderAggregator.offer` (source lines 187-197): discard invalid
candidates; set once; overwrite only if the currently stored value fails
re-validation. -/
def offer (best : List (String × Candidate)) (cand : Candidate) :
    List (String × Candidate) :=
  if !_validate cand.field cand.value then best
  else
    match alookup best cand.field with
    | none => aset best cand.field cand
    | some current =>
      if !_validate current.field current.value then aset best cand.field cand
      else best

/-- `HeaderAggregator.finalize` (source lines 199-200). -/
def finalizeHeader (best : List (String × Candidate)) : List (String × String) :=
  best.map (fun kv => (kv.1, kv.2.value))

/-! The `LABEL_PATTERNS` regexes (source lines 203-208) are label literals
separated by `\s*`, with a trailing `\s*[:.]?`.  A pattern is stored as its
literal core (the trailing `\s*[:.]?` always matches the empty string, so
searching for the full pattern is searching for the core); the value group
of `pat + r"\s*(.+)"` is reconstructed by `groupAfterLabel` below. -/

inductive LAtom where
  | lit : String → LAtom
  | ws : LAtom
deriving Repr, DecidableEq

structure LabelPat where
  anchored : Bool
  atoms : List LAtom
deriving Repr, DecidableEq

/-- Case-insensitive literal prefix strip. -/
def stripPrefixCI : List Char → List Char → Option (List Char)
  | [], s => some s
  | _ :: _, [] => none
  | p :: ps, c :: cs =>
    if Char.toLower p = Char.toLower c then stripPrefixCI ps cs else none

def matchAtoms : List LAtom → List Char → Option (List Char)
  | [], s => some s
  | LAtom.lit w :: rest, s =>
    match stripPrefixCI w.data s with
    | some s2 => matchAtoms rest s2
    | none => none
  | LAtom.ws :: rest, s => matchAtoms rest (s.dropWhile isWsChar)

def coreMatchAt (atoms : List LAtom) (s : List Char) : Bool := (matchAtoms atoms s).isSome

def anySuffixB (f : List Char → Bool) : List Char → Bool
  | [] => f []
  | c :: cs => f (c :: cs) || anySuffixB f cs

def anySuffixO (f : List Char → Option α) : List Char → Option α
  | [] => f []
  | c :: cs =>
    match f (c :: cs) with
    | some r => some r
    | none => anySuffixO f cs

def coreSearch (p : LabelPat) (s : List Char) : Bool :=
  if p.anchored then coreMatchAt p.atoms s else anySuffixB (coreMatchAt p.atoms) s

/-- Given the remainder after the label literals, the group captured by the
trailing `\s*[:.]?\s*(.+)` under greedy-with-backtracking `re` semantics:
take all whitespace, an optional `:` or `.`, all whitespace; if nothing is
left the engine backtracks one character so that `.+` is non-empty; an
empty remainder fails. -/
def groupAfterLabel (r : List Char) : Option (List Char) :=
  match r with
  | [] => none
  | _ :: _ =>
    let r1 := r.dropWhile isWsChar
    match r1 with
    | c :: r2 =>
      if c = ':' || c = '.' then
        let r3 := r2.dropWhile isWsChar
        if r3 ≠ [] then some r3
        else if r2 ≠ [] then some [r2.getLastD ' ']
        else some [c]
      else some r1
    | [] => some [r.getLastD ' ']

def valueAt (atoms : List LAtom) (s : List Char) : Option (List Char) :=
  match matchAtoms atoms s with
  | none => none
  | some r => groupAfterLabel r

def valueSearch (p : LabelPat) (s : List Char) : Option (List Char) :=
  if p.anchored then valueAt p.atoms s else anySuffixO (valueAt p.atoms) s

/-- `re.sub(r"^[:.]\s*", "", group.strip())` of the source. -/
def postValue (g : List Char) : String :=
  let v := trimChars g
  match v with
  | c :: rest => if c = ':' || c = '.' then String.mk (rest.dropWhile isWsChar) else String.mk v
  | [] => ""

def LABEL_PATTERNS : List (String × List LabelPat) :=
  [("patient_name",
     [⟨false, [LAtom.lit "patient", LAtom.ws, LAtom.lit "name"]⟩,
      ⟨true, [LAtom.lit "name"]⟩]),
   ("patient_mrn",
     [⟨false, [LAtom.lit "patient", LAtom.ws, LAtom.lit "mrn"]⟩,
      ⟨false, [LAtom.lit "mrn"]⟩,
      ⟨false, [LAtom.lit "uhid"]⟩]),
   ("bill_number",
     [⟨false, [LAtom.lit "bill", LAtom.ws, LAtom.lit "no"]⟩,
      ⟨false, [LAtom.lit "bill", LAtom.ws, LAtom.lit "number"]⟩,
      ⟨false, [LAtom.lit "invoice", LAtom.ws, LAtom.lit "no"]⟩]),
   ("billing_date",
     [⟨false, [LAtom.lit "billing", LAtom.ws, LAtom.lit "date"]⟩,
      ⟨false, [LAtom.lit "bill", LAtom.ws, LAtom.lit "date"]⟩])]

/-! ## Input data model (the OCR result dictionary consumed by `extract`) -/

/-- One OCR line `{text, confidence, box, page}`; `box` is a polygon or
null; numeric fields are taken after the source's defaulting (`or 0`,
`int(...)`, `float(...)`). -/
structure InLine where
  text : String
  confidence : ℚ
  box : Option (List (ℚ × ℚ))
  page : Int
deriving Repr, DecidableEq

/-- One OCR item block `{text, description, columns, page, y}` as read by
the extractor (`block.get(...)` defaults applied). -/
structure InBlock where
  text : String
  description : String
  columns : List String
  page : Int
  y : ℚ
deriving Repr, DecidableEq

structure OcrResult where
  raw_text : String
  lines : List InLine
  item_blocks : List InBlock
deriving Repr, DecidableEq

/-- Per-line extraction of header candidates (source lines 211-232): for
each field take the first label pattern found in the lower-cased text, then
capture the value after it (case-insensitively, on the original text). -/
def lineCandidates (line : InLine) : List Candidate :=
  let text := pyStrip line.text
  if text = "" then []
  else
    let conf := if line.confidence = 0 then 1 else line.confidence
    let tl := pyLower text
    LABEL_PATTERNS.foldl
      (fun acc fp =>
        match fp.2.find? (fun p => coreSearch p tl.data) with
        | some p =>
          match valueSearch p text.data with
          | some g => acc ++ [⟨fp.1, postValue g, conf, line.page⟩]
          | none => acc
        | none => acc)
      []

def extract_header_candidates (lines : List InLine) : List Candidate :=
  (lines.map lineCandidates).flatten

/-! ## Stable identifiers (source lines 239-241) -/

def joinBar : List String → String
  | [] => ""
  | [s] => s
  | s :: rest => s ++ "|" ++ joinBar rest

/-- Modelled from the spec: the external `hashlib.sha1(payload).hexdigest()`
"content hash" (`hashlib` is a library, not code of this repository) is
modelled as an injective encoding of its payload string; the spec relies
only on the identifier being a deterministic function of the hashed content
("re-processing the same document produces the same identifiers"). -/
def sha1_hexdigest_model (payload : String) : String := "sha1:" ++ payload

/-- `_make_id` (source lines 239-241). -/
def _make_id (tag : String) (parts : List String) : String :=
  sha1_hexdigest_model (joinBar (tag :: parts))

/-! ## Python number formatting (for hash payloads) -/

/-- `round` to integer, ties to even (Python banker's rounding). -/
def roundHalfEven (q : ℚ) : Int :=
  let f := ⌊q⌋
  let r := qSub q (f : ℚ)
  if r < mkRat 1 2 then f
  else if mkRat 1 2 < r then f + 1
  else if f % 2 = 0 then f else f + 1

/-- `round(x, 2)` on exact rationals. -/
def round2 (q : ℚ) : ℚ := qDiv ((roundHalfEven (qMul q 100) : Int) : ℚ) 100

def twoDigitStr (k : Nat) : String := (if k < 10 then "0" else "") ++ toString k

/-- `f"{x:.2f}"` on exact rationals. -/
def fmt2 (q : ℚ) : String :=
  let c := roundHalfEven (qMul q 100)
  let n := c.natAbs
  (if c < 0 then "-" else "") ++ toString (n / 100) ++ "." ++ twoDigitStr (n % 100)

/-- `str(x)` for a Python float carrying at most two decimals (shortest
round-trip repr: drop a trailing zero hundredth, keep at least one decimal
digit). -/
def pyFloatStr (q : ℚ) : String :=
  let c := roundHalfEven (qMul q 100)
  let n := c.natAbs
  (if c < 0 then "-" else "") ++ toString (n / 100) ++ "." ++
    (if n % 100 % 10 = 0 then toString (n % 100 / 10) else twoDigitStr (n % 100))

/-- `f"{amount or ''}"` for an optional float (`None` and `0.0` are falsy). -/
def amountOrEmpty : Option ℚ → String
  | none => ""
  | some q => if q = 0 then "" else pyFloatStr q

/-! ## Output data model -/

structure LineItem where
  item_id : String
  description : String
  amount : ℚ
  category : String
  page : Int
  section_raw : Option String
deriving Repr, DecidableEq

structure PaymentEvent where
  payment_id : String
  description : String
  amount : Option ℚ
  reference : Option String
  page : Int
deriving Repr, DecidableEq

/-- The result dictionary built by `BillExtractor.extract` (source lines
450-466).  `extraction_date` is the wall-clock timestamp, passed in as a
parameter of the embedding. -/
structure BillDoc where
  extraction_date : String
  primary_bill_number : Option String
  bill_numbers : List String
  billing_date : Option String
  patient_name : String
  patient_mrn : Option String
  items : List (String × List LineItem)
  payments : List PaymentEvent
  subtotals : List (String × ℚ)
  grand_total : ℚ
  raw_ocr_text : Option String
deriving Repr, DecidableEq

/-! ## `BillExtractor.extract` (source lines 248-468) -/

/-- `y_key_line` (source lines 261-268): min y over the box polygon, `0.0`
for missing/empty geometry. -/
def y_key_line (l : InLine) : ℚ :=
  match l.box with
  | some (p :: ps) => minListQ p.2 (ps.map Prod.snd)
  | _ => 0

/-- Sort key of `lines_sorted` (source line 270): `(page, y)` ascending,
stable. -/
def lineKeyLe (a b : InLine) : Bool :=
  a.page < b.page || (a.page = b.page && y_key_line a ≤ y_key_line b)

/-- Python `str.split` on a newline. -/
def splitNl : List Char → List (List Char)
  | [] => [[]]
  | c :: cs =>
    if c = '\n' then [] :: splitNl cs
    else
      match splitNl cs with
      | g :: gs => (c :: g) :: gs
      | [] => [[c]]

/-- Legacy fallback (source lines 254-259): split `raw_text` on newlines. -/
def splitLinesRaw (raw : String) : List InLine :=
  (splitNl raw.data).filterMap
    (fun t =>
      let t2 := String.mk (trimChars t)
      if t2 = "" then none else some ⟨t2, 1, none, 0⟩)

/-- Lexicographic order on `(page, y)` section keys (Python tuple `<`). -/
def keyLt (a b : Int × ℚ) : Bool := a.1 < b.1 || (a.1 = b.1 && a.2 < b.2)

/-- Lexicographic `≤` on `(page, y)` section keys. -/
def keyLe (a b : Int × ℚ) : Bool := a.1 < b.1 || (a.1 = b.1 && a.2 ≤ b.2)

def eventKeyLe (a b : (Int × ℚ) × String) : Bool := keyLe a.1 b.1

/-- `bisect.bisect_right` loop (Python stdlib): binary search for the
insertion point after any entries equal to `x`.  The `while lo < hi` loop
is given explicit fuel (each iteration shrinks `hi - lo` by at least one,
so any fuel `≥ hi - lo` gives the loop's result). -/
def bisectGo (a : List (Int × ℚ)) (x : Int × ℚ) : Nat → Nat → Nat → Nat
  | 0, lo, _ => lo
  | fuel + 1, lo, hi =>
    if lo < hi then
      let mid := (lo + hi) / 2
      if keyLt x (a.getD mid (0, 0)) then bisectGo a x fuel lo mid
      else bisectGo a x fuel (mid + 1) hi
    else lo

def bisect_right (a : List (Int × ℚ)) (x : Int × ℚ) : Nat :=
  bisectGo a x a.length 0 a.length

/-- `section_at` (source lines 310-319) over the sorted section events:
`bisect_right` on the keys, then the value one position to the left. -/
def section_at (events : List ((Int × ℚ) × String)) (page : Int) (y : ℚ) :
    Option String :=
  let keys := events.map Prod.fst
  if keys = [] then none
  else
    let idx := bisect_right keys (page, y)
    if idx = 0 then none else (events.map Prod.snd).get? (idx - 1)

/-- The fixed category set of `categorized` (source lines 321-336), in
insertion order. -/
def CATEGORY_KEYS : List String :=
  ["medicines", "regulated_pricing_drugs", "surgical_consumables", "implants_devices",
   "diagnostics_tests", "radiology", "consultation", "hospitalization", "packages",
   "administrative", "other"]

def emptyCategorized : List (String × List LineItem) :=
  CATEGORY_KEYS.map (fun k => (k, []))

/-- `categorized[category].append(item)`. -/
def appendToCat (m : List (String × List LineItem)) (k : String) (it : LineItem) :
    List (String × List LineItem) :=
  m.map (fun kv => if kv.1 = k then (kv.1, kv.2 ++ [it]) else kv)

/-- `_normalize_ws` (source lines 235-236): strip, then collapse whitespace
runs to single spaces. -/
def collapseWsGo : Bool → List Char → List Char
  | _, [] => []
  | prevWs, c :: cs =>
    if isWsChar c then
      if prevWs then collapseWsGo true cs else ' ' :: collapseWsGo true cs
    else c :: collapseWsGo false cs

def _normalize_ws (s : String) : String := String.mk (collapseWsGo false (trimChars s.data))

def blockTextN (b : InBlock) : String := _normalize_ws b.text

/-- `desc = _normalize_ws(block.get("description") or "") or text`. -/
def blockDescN (b : InBlock) : String :=
  let d := _normalize_ws b.description
  if d = "" then blockTextN b else d

/-- Amount resolution for a non-payment block (source lines 364-371): the
last column (scanning `columns` in reverse) from which an amount parses,
else the trailing amount of the full normalized text. -/
def blockAmount (b : InBlock) : Option ℚ :=
  match b.columns.reverse.findSome? extract_amount_from_text with
  | some a => some a
  | none => extract_amount_from_text (blockTextN b)

/-- `category = sec if sec in categorized else "other"`. -/
def categoryOf (sec : Option String) : String :=
  match sec with
  | some s => if CATEGORY_KEYS.contains s then s else "other"
  | none => "other"

/-- The payment record built from a payment-ish block (source lines
349-362). -/
def paymentOfBlock (b : InBlock) : PaymentEvent :=
  let text := blockTextN b
  let desc := blockDescN b
  let amount := extract_amount_from_text text
  let ref := extract_reference text
  let pid := _make_id "payment"
    [ref.getD "", amountOrEmpty amount, pyLower desc, toString b.page]
  ⟨pid, desc, amount, ref, b.page⟩

/-- The item record built from a non-payment block with a positive amount
(source lines 375-392). -/
def itemOfBlock (sec : Option String) (b : InBlock) (amount : ℚ) : LineItem :=
  let desc := blockDescN b
  let category := categoryOf sec
  let item_id := _make_id "item" [category, fmt2 amount, pyLower desc, toString b.page]
  ⟨item_id, desc, amount, category, b.page, sec⟩

/-- The per-block step of the item-blocks loop (source lines 341-392). -/
def stepBlock (events : List ((Int × ℚ) × String))
    (st : List (String × List LineItem) × List PaymentEvent) (b : InBlock) :
    List (String × List LineItem) × List PaymentEvent :=
  let text := blockTextN b
  let desc := blockDescN b
  if is_paymentish text || is_paymentish desc then
    (st.1, st.2 ++ [paymentOfBlock b])
  else
    match blockAmount b with
    | none => st
    | some amount =>
      if amount ≤ 0 then st
      else
        let sec := section_at events b.page b.y
        (appendToCat st.1 (categoryOf sec) (itemOfBlock sec b amount), st.2)

def processBlocks (events : List ((Int × ℚ) × String)) (blocks : List InBlock) :
    List (String × List LineItem) × List PaymentEvent :=
  blocks.foldl (stepBlock events) (emptyCategorized, [])

/-- The payment record built from a payment-ish fallback line (source lines
406-419). -/
def paymentOfLine (text : String) (page : Int) : PaymentEvent :=
  let amount := extract_amount_from_text text
  let ref := extract_reference text
  let pid := _make_id "payment"
    [ref.getD "", amountOrEmpty amount, pyLower text, toString page]
  ⟨pid, text, amount, ref, page⟩

/-- The item record built from a fallback line (source lines 425-436). -/
def itemOfLine (cur : Option String) (text : String) (page : Int) (amt : ℚ) : LineItem :=
  let category := match cur with
    | some s => if CATEGORY_KEYS.contains s then s else "other"
    | none => "other"
  let item_id := _make_id "item" [category, fmt2 amt, pyLower text, toString page]
  ⟨item_id, text, amt, category, page, cur⟩

/-- The per-line step of the line-based fallback loop (source lines
395-436); the third state component is `current_section`. -/
def stepLine (st : List (String × List LineItem) × List PaymentEvent × Option String)
    (line : InLine) :
    List (String × List LineItem) × List PaymentEvent × Option String :=
  let text := _normalize_ws line.text
  if text = "" then st
  else
    match detect_section_header text with
    | some sec => (st.1, st.2.1, some sec)
    | none =>
      if is_paymentish text then (st.1, st.2.1 ++ [paymentOfLine text line.page], st.2.2)
      else
        match extract_amount_from_text text with
        | none => st
        | some amt =>
          if amt ≤ 0 then st
          else
            let cur := st.2.2
            (appendToCat st.1 (itemOfLine cur text line.page amt).category
               (itemOfLine cur text line.page amt), st.2.1, cur)

def processLines (lines : List InLine) :
    List (String × List LineItem) × List PaymentEvent :=
  let r := lines.foldl stepLine (emptyCategorized, [], none)
  (r.1, r.2.1)

/-- All finalized line items across categories, in category order. -/
def itemsAll (cat : List (String × List LineItem)) : List LineItem :=
  (cat.map Prod.snd).flatten

/-- The guardrail test (source lines 439-443): an upper-cased description
containing the receipt-reference token `RCPO-`. -/
def containsReceiptRef (s : String) : Bool := containsSub "RCPO-" (pyUpper s)

/-- The lines actually processed: the legacy `raw_text` fallback when no
structured lines exist (source lines 254-259). -/
def linesUsed (o : OcrResult) : List InLine :=
  if o.lines = [] && o.raw_text ≠ "" then splitLinesRaw o.raw_text else o.lines

def linesSorted (o : OcrResult) : List InLine := ssort lineKeyLe (linesUsed o)

/-- The section events (source lines 296-308): detected headers keyed by
`(page, y)`, stably sorted by key. -/
def eventsOf (o : OcrResult) : List ((Int × ℚ) × String) :=
  ssort eventKeyLe
    ((linesSorted o).filterMap
      (fun l => (detect_section_header l.text).map (fun s => ((l.page, y_key_line l), s))))

/-- The categorized items and payments of one extraction run: the
item-blocks path when blocks exist, else the line-based fallback. -/
def catPays (o : OcrResult) :
    List (String × List LineItem) × List PaymentEvent :=
  if o.item_blocks ≠ [] then processBlocks (eventsOf o) o.item_blocks
  else processLines (linesSorted o)

def finalItems (o : OcrResult) : List LineItem := itemsAll (catPays o).1

def sumAmounts (its : List LineItem) : ℚ := its.foldl (fun s i => qAdd s i.amount) 0

def sumQ (qs : List ℚ) : ℚ := qs.foldl qAdd 0

/-- Deduplication of bill-number candidates (source lines 284-290). -/
def dedupKeep (xs : List String) : List String :=
  (xs.foldl
    (fun (st : List String × List String) bn =>
      let bn2 := pyStrip bn
      if bn2 ≠ "" && !st.2.contains bn2 then (st.1 ++ [bn2], st.2 ++ [bn2]) else st)
    ([], [])).1

/-- `BillExtractor.extract` (source lines 248-468), returning
`Except.error` for the fatal guardrail `AssertionError` (source line 443).
`now` stands for `datetime.now().isoformat()`. -/
def extract (now : String) (o : OcrResult) : Except String BillDoc :=
  let ls := linesSorted o
  let cands := extract_header_candidates ls
  let best := cands.foldl offer []
  let header_locked := finalizeHeader best
  let bill_number_candidates :=
    (cands.filter (fun c => c.field = "bill_number" && _validate "bill_number" c.value)).map
      (fun c => pyStrip c.value)
  let bill_numbers0 := dedupKeep bill_number_candidates
  let primary := alookup header_locked "bill_number"
  let bill_numbers :=
    match primary with
    | some p => if p ≠ "" && !bill_numbers0.contains p then p :: bill_numbers0 else bill_numbers0
    | none => bill_numbers0
  let cp := catPays o
  if (itemsAll cp.1).any (fun it => containsReceiptRef it.description) then
    Except.error "Payment-like reference leaked into medical items"
  else
    let subtotals := cp.1.map (fun kv => (kv.1, round2 (sumAmounts kv.2)))
    let grand_total := round2 (sumQ (subtotals.map Prod.snd))
    Except.ok
      { extraction_date := now
        primary_bill_number := primary
        bill_numbers := bill_numbers
        billing_date := alookup header_locked "billing_date"
        patient_name :=
          match alookup header_locked "patient_name" with
          | some v => if v = "" then "UNKNOWN" else v
          | none => "UNKNOWN"
        patient_mrn := alookup header_locked "patient_mrn"
        items := cp.1
        payments := cp.2
        subtotals := subtotals
        grand_total := grand_total
        raw_ocr_text :=
          if o.raw_text = "" then none else some (String.mk (o.raw_text.data.take 5000)) }

/-! ## OCR grouping stage (`app/ocr/paddle_engine.py`)

The PaddleOCR engine itself is an external collaborator; the embedding
starts from the collected fragments (`all_lines`) and models the geometry
helpers, row clustering, and column segmentation of `run_ocr` (source
lines 88-200). -/

/-- One OCR fragment `{text, confidence, box}`. -/
structure Frag where
  text : String
  confidence : ℚ
  box : Option (List (ℚ × ℚ))
deriving Repr, DecidableEq

/-- `_top_y` (source lines 15-27): min y of the polygon, `0.0` when the box
is missing or empty. -/
def _top_y (b : Option (List (ℚ × ℚ))) : ℚ :=
  match b with
  | some (p :: ps) => minListQ p.2 (ps.map Prod.snd)
  | _ => 0

def qMax (a b : ℚ) : ℚ := if a ≤ b then b else a

def maxListQ (x : ℚ) (xs : List ℚ) : ℚ := xs.foldl qMax x

/-- `_left_x` (source lines 30-42). -/
def _left_x (b : Option (List (ℚ × ℚ))) : ℚ :=
  match b with
  | some (p :: ps) => minListQ p.1 (ps.map Prod.fst)
  | _ => 0

/-- `_height` (source lines 45-59): max y minus min y, `0.0` when the box
is missing or empty. -/
def _height (b : Option (List (ℚ × ℚ))) : ℚ :=
  match b with
  | some (p :: ps) =>
    qSub (maxListQ p.2 (ps.map Prod.snd)) (minListQ p.2 (ps.map Prod.snd))
  | _ => 0

/-- `row_threshold` (source lines 96-97): `avg_height * 0.8` when the
average height is positive, else the fixed fallback `15`. -/
def rowThreshold (lines : List Frag) : ℚ :=
  let avg := qDiv (sumQ (lines.map (fun l => _height l.box))) ((max lines.length 1 : Nat) : ℚ)
  if 0 < avg then qMul avg (mkRat 8 10) else 15

def fragYLe (a b : Frag) : Bool := _top_y a.box ≤ _top_y b.box

def fragXLe (a b : Frag) : Bool := _left_x a.box ≤ _left_x b.box

/-- The greedy sweep of `_cluster_rows` (source lines 101-112): `cur` is
the row being built (non-empty), `prevY` the y of its most recently added
fragment. -/
def sweepGo (th : ℚ) (cur : List Frag) (prevY : ℚ) : List Frag → List (List Frag)
  | [] => [cur]
  | l :: ls =>
    let y := _top_y l.box
    if qAbs (qSub y prevY) ≤ th then sweepGo th (cur ++ [l]) y ls
    else cur :: sweepGo th [l] y ls

/-- `_cluster_rows` (source lines 88-118). -/
def _cluster_rows (lines : List Frag) : List (List Frag) :=
  if lines = [] then []
  else
    let th := rowThreshold lines
    match ssort fragYLe lines with
    | [] => []
    | l0 :: rest => sweepGo th [l0] (_top_y l0.box) rest

/-- `_split_columns` (source lines 124-136): sort the row by left-x, then
split at the date anchor into description parts (strictly left of the
anchor) and numeric column parts. -/
def _split_columns (row : List Frag) (date_x : ℚ) : List String × List String :=
  let r := ssort fragXLe row
  ((r.filter (fun l => _left_x l.box < date_x)).map (fun l => l.text),
   (r.filter (fun l => !(_left_x l.box < date_x))).map (fun l => l.text))

/-- The date-anchor candidates (source lines 176-180): left-x of every
fragment whose text has exactly 10 characters and contains a dash. -/
def dateCandidates (all_lines : List Frag) : List ℚ :=
  (all_lines.filter (fun l => l.text.data.contains '-' && l.text.length = 10)).map
    (fun l => _left_x l.box)

/-- `date_x` (source line 181): the minimum candidate, or the fixed design
constant 250. -/
def dateAnchor (all_lines : List Frag) : ℚ :=
  match dateCandidates all_lines with
  | [] => 250
  | c :: cs => minListQ c cs

def joinSp (parts : List String) : String :=
  String.mk ((parts.intersperse " ").map String.data).flatten

/-- An item block of `run_ocr` (source lines 189-194): joined text,
description zone, numeric columns, and the row's fragments (sorted in
place by `_split_columns`). -/
structure OcrBlock where
  text : String
  description : String
  columns : List String
  lineFrags : List Frag
deriving Repr, DecidableEq

/-- The grouping stage of `run_ocr` (source lines 167-200) applied to the
collected fragments: cluster rows, fix the date anchor, split each row, and
keep a block only when both zones are non-empty. -/
def run_ocr_blocks (all_lines : List Frag) : List OcrBlock :=
  if all_lines = [] then []
  else
    let rows := _cluster_rows all_lines
    let date_x := dateAnchor all_lines
    rows.filterMap
      (fun row =>
        let dn := _split_columns row date_x
        if dn.1 = [] || dn.2 = [] then none
        else some ⟨joinSp (dn.1 ++ dn.2), joinSp dn.1, dn.2, ssort fragXLe row⟩)

/-! ## Specification-side definitions

Used on the right-hand sides of the refinement theorems; each follows the
spec's description of a behaviour, to be compared with the translated
source code above. -/

/-- Spec wording for `section_at`: the last event in list order whose key
is at or before the query (in an ascending list this is the event with the
greatest key that is at or before the query; among events sharing that key,
the last inserted). -/
def lastAtOrBefore (events : List ((Int × ℚ) × String)) (page : Int) (y : ℚ) :
    Option String :=
  ((events.filter (fun e => keyLe e.1 (page, y))).getLast?).map Prod.snd

/-- The item produced by one block of the item-blocks path, if any: payments
are excluded first; the amount comes from the last parseable column, else
the trailing amount of the text; a missing or non-positive amount drops the
block. -/
def blockItemOpt (events : List ((Int × ℚ) × String)) (b : InBlock) : Option LineItem :=
  if is_paymentish (blockTextN b) || is_paymentish (blockDescN b) then none
  else
    match blockAmount b with
    | none => none
    | some a =>
      if a ≤ 0 then none
      else some (itemOfBlock (section_at events b.page b.y) b a)

/-- The payment produced by one block of the item-blocks path, if any. -/
def blockPayOpt (b : InBlock) : Option PaymentEvent :=
  if is_paymentish (blockTextN b) || is_paymentish (blockDescN b) then
    some (paymentOfBlock b)
  else none

/-- The payment produced by one fallback line, if any (empty and
section-header lines first produce nothing). -/
def linePayOpt (l : InLine) : Option PaymentEvent :=
  let t := _normalize_ws l.text
  if t = "" then none
  else
    match detect_section_header t with
    | some _ => none
    | none => if is_paymentish t then some (paymentOfLine t l.page) else none

/-- The items produced by the fallback path from a starting section state:
a detected header updates the section, a payment line is skipped, and any
other line with a positive trailing amount becomes an item of the current
section. -/
def lineItemsFrom (cur : Option String) : List InLine → List LineItem
  | [] => []
  | l :: ls =>
    let t := _normalize_ws l.text
    if t = "" then lineItemsFrom cur ls
    else
      match detect_section_header t with
      | some sec => lineItemsFrom (some sec) ls
      | none =>
        if is_paymentish t then lineItemsFrom cur ls
        else
          match extract_amount_from_text t with
          | none => lineItemsFrom cur ls
          | some amt =>
            if amt ≤ 0 then lineItemsFrom cur ls
            else itemOfLine cur t l.page amt :: lineItemsFrom cur ls

/-- Boolean ascending-sortedness of section events by their `(page, y)`
key. -/
def eventsSortedB : List ((Int × ℚ) × String) → Bool
  | [] => true
  | e :: rest => rest.all (fun e2 => keyLe e.1 e2.1) && eventsSortedB rest

/-- Boolean ascending-sortedness of a key list. -/
def keysSortedB : List (Int × ℚ) → Bool
  | [] => true
  | k :: rest => rest.all (fun k2 => keyLe k k2) && keysSortedB rest

/-- The flat list of line items produced by one extraction run (before
category partitioning). -/
def producedItems (o : OcrResult) : List LineItem :=
  if o.item_blocks ≠ [] then o.item_blocks.filterMap (blockItemOpt (eventsOf o))
  else lineItemsFrom none (linesSorted o)

/-- The payments sequence produced by one extraction run. -/
def producedPays (o : OcrResult) : List PaymentEvent :=
  if o.item_blocks ≠ [] then o.item_blocks.filterMap blockPayOpt
  else (linesSorted o).filterMap linePayOpt

/-- The `current_section` state after the fallback loop has consumed a list
of lines. -/
def curAfter (cur : Option String) : List InLine → Option String
  | [] => cur
  | l :: ls =>
    let t := _normalize_ws l.text
    if t = "" then curAfter cur ls
    else
      match detect_section_header t with
      | some sec => curAfter (some sec) ls
      | none => curAfter cur ls

/-! ## Concrete instances (used to instantiate theorems with hypotheses) -/

def emptyBillDoc : BillDoc :=
  ⟨"", none, [], none, "", none, [], [], [], 0, none⟩

/-- A fallback-path input whose only line matches a payment pattern
(`TRANSACTION`) but is also recognized as a section header (its lower-cased
text contains the radiology keyword `ct`). -/
def cexC1in : OcrResult := ⟨"", [⟨"Transaction", 1, none, 0⟩], []⟩

def cexC1doc : BillDoc :=
  match extract "T" cexC1in with
  | Except.ok d => d
  | Except.error _ => emptyBillDoc

/-- A blocks-path input with one medical item row and one receipt row. -/
def wC1in : OcrResult :=
  ⟨"", [⟨"MEDICINES", 1, some [(10, 2), (80, 12)], 0⟩],
   [⟨"Paracetamol 45.00", "Paracetamol", ["45.00"], 0, 30⟩,
    ⟨"RCPO-1234 CASH 500.00", "RCPO-1234 CASH", ["500.00"], 0, 40⟩]⟩

def wC1doc : BillDoc :=
  match extract "T" wC1in with
  | Except.ok d => d
  | Except.error _ => emptyBillDoc

/-- A blocks-path input whose only row is not payment-like (its `RCPO-` is
not followed by an alphanumeric character) yet carries the receipt token in
its description: the guardrail must abort. -/
def wC3in : OcrResult :=
  ⟨"", [], [⟨"ends RCPO- 45.00", "ends RCPO-", ["45.00"], 0, 0⟩]⟩

def wC4in : OcrResult :=
  ⟨"", [], [⟨"Gauze 12.50", "Gauze", ["12.50"], 0, 10⟩,
            ⟨"Tape 7.25", "Tape", ["7.25"], 0, 20⟩]⟩

def wC4doc : BillDoc :=
  match extract "T" wC4in with
  | Except.ok d => d
  | Except.error _ => emptyBillDoc

def wC5in : OcrResult :=
  ⟨"", [], [⟨"Bandage 9.99", "Bandage", ["9.99"], 0, 10⟩,
            ⟨"PAID CASH 100", "PAID CASH", ["100"], 0, 20⟩]⟩

def wC5doc : BillDoc :=
  match extract "T" wC5in with
  | Except.ok d => d
  | Except.error _ => emptyBillDoc

def wC6in : OcrResult :=
  ⟨"", [], [⟨"Syrup 19.00", "Syrup", ["no-amount", "19.00"], 0, 10⟩,
            ⟨"Note row", "Note", ["zero 0.00"], 0, 20⟩]⟩

def wC6doc : BillDoc :=
  match extract "T" wC6in with
  | Except.ok d => d
  | Except.error _ => emptyBillDoc

/-! # Lemmas -/

/-! ## Rational bridges -/

theorem qAdd_eq (a b : ℚ) : qAdd a b = a + b := by
  rw [qAdd, Rat.mkRat_eq_div]
  conv_rhs => rw [← Rat.num_div_den a, ← Rat.num_div_den b]
  rw [div_add_div _ _ (by exact_mod_cast a.den_nz) (by exact_mod_cast b.den_nz)]
  push_cast
  ring_nf

theorem qSub_eq (a b : ℚ) : qSub a b = a - b := by
  rw [qSub, Rat.mkRat_eq_div]
  conv_rhs => rw [← Rat.num_div_den a, ← Rat.num_div_den b]
  rw [div_sub_div _ _ (by exact_mod_cast a.den_nz) (by exact_mod_cast b.den_nz)]
  push_cast
  ring_nf

theorem qMul_eq (a b : ℚ) : qMul a b = a * b := by
  rw [qMul, Rat.mkRat_eq_div]
  conv_rhs => rw [← Rat.num_div_den a, ← Rat.num_div_den b]
  rw [div_mul_div_comm]
  push_cast
  ring_nf

theorem qDiv_eq (a b : ℚ) : qDiv a b = a / b := by
  rcases lt_trichotomy b.num 0 with h | h | h
  · rw [qDiv, if_pos h, Rat.mkRat_eq_div]
    have h1 : ((b.num.natAbs : ℚ)) = -(b.num : ℚ) := by
      rw [Int.cast_natAbs]
      exact_mod_cast abs_of_neg h
    push_cast [h1]
    conv_rhs => rw [← Rat.num_div_den a, ← Rat.num_div_den b]
    field_simp
  · have hb : b = 0 := Rat.num_eq_zero.mp h
    subst hb
    simp [qDiv, div_zero]
  · rw [qDiv, if_neg (by omega), Rat.mkRat_eq_div]
    have h1 : ((b.num.natAbs : ℚ)) = (b.num : ℚ) := by
      rw [Int.cast_natAbs]
      exact_mod_cast abs_of_pos h
    push_cast [h1]
    conv_rhs => rw [← Rat.num_div_den a, ← Rat.num_div_den b]
    field_simp

theorem qAbs_eq (a : ℚ) : qAbs a = |a| := by
  rcases lt_trichotomy a.num 0 with h | h | h
  · rw [qAbs, if_pos h, Rat.mkRat_eq_div]
    have ha : a < 0 := by
      rw [← not_le]
      intro hle
      rw [← Rat.num_nonneg] at hle
      omega
    rw [abs_of_neg ha]
    push_cast
    conv_rhs => rw [← Rat.num_div_den a]
    field_simp
  · rw [qAbs, if_neg (by omega), abs_of_nonneg]
    rw [← Rat.num_nonneg]
    omega
  · rw [qAbs, if_neg (by omega), abs_of_nonneg]
    rw [← Rat.num_nonneg]
    omega

theorem qMin_eq (a b : ℚ) : qMin a b = min a b := by
  rw [qMin, min_def]

theorem qMax_eq (a b : ℚ) : qMax a b = max a b := by
  rw [qMax, max_def]

theorem sumQ_eq (qs : List ℚ) : sumQ qs = qs.sum := by
  have h : ∀ (l : List ℚ) (acc : ℚ), l.foldl qAdd acc = acc + l.sum := by
    intro l
    induction l with
    | nil => intro acc; simp
    | cons x xs ih =>
      intro acc
      rw [List.foldl_cons, ih, qAdd_eq, List.sum_cons]
      ring
  rw [sumQ, h, zero_add]

theorem sumAmounts_eq (its : List LineItem) :
    sumAmounts its = (its.map (fun it => it.amount)).sum := by
  have h : ∀ (l : List LineItem) (acc : ℚ),
      l.foldl (fun s i => qAdd s i.amount) acc = acc + (l.map (fun it => it.amount)).sum := by
    intro l
    induction l with
    | nil => intro acc; simp
    | cons x xs ih =>
      intro acc
      rw [List.foldl_cons, ih, qAdd_eq, List.map_cons, List.sum_cons]
      ring
  rw [sumAmounts, h, zero_add]

/-! ## Association list lemmas -/

theorem alookup_cons {α : Type} (kv : String × α) (rest : List (String × α)) (f : String) :
    alookup (kv :: rest) f = if kv.1 = f then some kv.2 else alookup rest f := by
  cases kv
  rfl

theorem alookup_map_set_ne {α : Type} (m : List (String × α)) (k f : String) (v : α)
    (h : k ≠ f) :
    alookup (m.map (fun kv => if kv.1 = k then (k, v) else kv)) f = alookup m f := by
  induction m with
  | nil => rfl
  | cons kv rest ih =>
    rw [List.map_cons]
    by_cases hk : kv.1 = k
    · have hkf : kv.1 ≠ f := by rw [hk]; exact h
      rw [if_pos hk, alookup_cons, alookup_cons, if_neg h, if_neg hkf, ih]
    · rw [if_neg hk, alookup_cons, alookup_cons, ih]

theorem alookup_append_single_ne {α : Type} (m : List (String × α)) (k f : String) (v : α)
    (h : k ≠ f) : alookup (m ++ [(k, v)]) f = alookup m f := by
  induction m with
  | nil =>
    rw [List.nil_append, alookup_cons, if_neg h]
  | cons kv rest ih =>
    rw [List.cons_append, alookup_cons, alookup_cons, ih]

theorem alookup_aset_ne {α : Type} (m : List (String × α)) (k f : String) (v : α)
    (h : k ≠ f) : alookup (aset m k v) f = alookup m f := by
  rw [aset]
  by_cases hc : m.any (fun kv => kv.1 = k)
  · rw [if_pos hc, alookup_map_set_ne m k f v h]
  · rw [if_neg hc, alookup_append_single_ne m k f v h]

theorem alookup_appendToCat_self (m : List (String × List LineItem)) (k : String)
    (it : LineItem) :
    alookup (appendToCat m k it) k = (alookup m k).map (fun l => l ++ [it]) := by
  induction m with
  | nil => rfl
  | cons kv rest ih =>
    rw [appendToCat, List.map_cons]
    by_cases hk : kv.1 = k
    · rw [if_pos hk, alookup_cons, alookup_cons, if_pos hk]
      rw [show ((kv.1, kv.2 ++ [it]) : String × List LineItem).1 = k from hk, if_pos rfl]
      rfl
    · rw [if_neg hk, alookup_cons, alookup_cons, if_neg hk, if_neg hk, ← appendToCat, ih]

theorem alookup_appendToCat_ne (m : List (String × List LineItem)) (k c : String)
    (it : LineItem) (h : c ≠ k) :
    alookup (appendToCat m k it) c = alookup m c := by
  induction m with
  | nil => rfl
  | cons kv rest ih =>
    rw [appendToCat, List.map_cons]
    by_cases hk : kv.1 = k
    · have hkc : kv.1 ≠ c := by rw [hk]; exact fun hh => h hh.symm
      rw [if_pos hk, alookup_cons, alookup_cons, if_neg hkc]
      rw [show ((kv.1, kv.2 ++ [it]) : String × List LineItem).1 = kv.1 from rfl, if_neg hkc,
        ← appendToCat, ih]
    · rw [if_neg hk, alookup_cons, alookup_cons, ← appendToCat, ih]

/-! ## Characterization of the item-blocks loop -/

theorem itemOfBlock_category (sec : Option String) (b : InBlock) (a : ℚ) :
    (itemOfBlock sec b a).category = categoryOf sec := rfl

theorem foldl_stepBlock_eq (ev : List ((Int × ℚ) × String)) (bs : List InBlock) :
    ∀ (c₀ : List (String × List LineItem)) (p₀ : List PaymentEvent),
      bs.foldl (stepBlock ev) (c₀, p₀) =
        (c₀.map (fun kv =>
            (kv.1, kv.2 ++ (bs.filterMap (blockItemOpt ev)).filter
              (fun it => it.category = kv.1))),
         p₀ ++ bs.filterMap blockPayOpt) := by
  induction bs with
  | nil =>
    intro c₀ p₀
    simp
  | cons b bs ih =>
    intro c₀ p₀
    rw [List.foldl_cons]
    by_cases hp : (is_paymentish (blockTextN b) || is_paymentish (blockDescN b)) = true
    · have hstep : stepBlock ev (c₀, p₀) b = (c₀, p₀ ++ [paymentOfBlock b]) := by
        rw [stepBlock, if_pos hp]
      have hio : blockItemOpt ev b = none := by rw [blockItemOpt, if_pos hp]
      have hpo : blockPayOpt b = some (paymentOfBlock b) := by rw [blockPayOpt, if_pos hp]
      rw [hstep, ih, List.filterMap_cons, hio, List.filterMap_cons, hpo]
      simp
    · have hp' : (is_paymentish (blockTextN b) || is_paymentish (blockDescN b)) = false := by
        simpa using hp
      cases ham : blockAmount b with
      | none =>
        have hstep : stepBlock ev (c₀, p₀) b = (c₀, p₀) := by
          simp [stepBlock, hp', ham]
        have hio : blockItemOpt ev b = none := by
          simp [blockItemOpt, hp', ham]
        have hpo : blockPayOpt b = none := by simp [blockPayOpt, hp']
        rw [hstep, ih, List.filterMap_cons, hio, List.filterMap_cons, hpo]
      | some a =>
        by_cases hle : a ≤ 0
        · have hstep : stepBlock ev (c₀, p₀) b = (c₀, p₀) := by
            simp [stepBlock, hp', ham, hle]
          have hio : blockItemOpt ev b = none := by
            simp [blockItemOpt, hp', ham, hle]
          have hpo : blockPayOpt b = none := by simp [blockPayOpt, hp']
          rw [hstep, ih, List.filterMap_cons, hio, List.filterMap_cons, hpo]
        · have hstep : stepBlock ev (c₀, p₀) b =
              (appendToCat c₀ (categoryOf (section_at ev b.page b.y))
                (itemOfBlock (section_at ev b.page b.y) b a), p₀) := by
            simp [stepBlock, hp', ham, hle]
          have hio : blockItemOpt ev b = some (itemOfBlock (section_at ev b.page b.y) b a) := by
            simp [blockItemOpt, hp', ham, hle]
          have hpo : blockPayOpt b = none := by simp [blockPayOpt, hp']
          rw [hstep, ih, List.filterMap_cons, hio, List.filterMap_cons, hpo]
          rw [appendToCat, List.map_map]
          refine Prod.ext ?_ rfl
          refine List.map_congr_left ?_
          intro kv _
          by_cases hc : kv.1 = categoryOf (section_at ev b.page b.y)
          · have hcat : (itemOfBlock (section_at ev b.page b.y) b a).category = kv.1 := by
              rw [itemOfBlock_category]
              exact hc.symm
            simp [Function.comp, if_pos hc, List.filter_cons, hcat]
          · have hcat : ¬(itemOfBlock (section_at ev b.page b.y) b a).category = kv.1 := by
              rw [itemOfBlock_category]
              exact fun hh => hc hh.symm
            simp [Function.comp, if_neg hc, List.filter_cons, hcat]

theorem processBlocks_eq (ev : List ((Int × ℚ) × String)) (bs : List InBlock) :
    processBlocks ev bs =
      (emptyCategorized.map (fun kv =>
          (kv.1, (bs.filterMap (blockItemOpt ev)).filter (fun it => it.category = kv.1))),
       bs.filterMap blockPayOpt) := by
  rw [processBlocks, foldl_stepBlock_eq]
  refine Prod.ext ?_ rfl
  dsimp only
  refine List.map_congr_left ?_
  intro kv hkv
  rcases List.mem_map.mp hkv with ⟨k, _, rfl⟩
  simp

/-! ## Characterization of the line-based fallback loop -/

theorem foldl_stepLine_eq (ls : List InLine) :
    ∀ (c₀ : List (String × List LineItem)) (p₀ : List PaymentEvent) (cur₀ : Option String),
      ls.foldl stepLine (c₀, p₀, cur₀) =
        (c₀.map (fun kv =>
            (kv.1, kv.2 ++ (lineItemsFrom cur₀ ls).filter (fun it => it.category = kv.1))),
         p₀ ++ ls.filterMap linePayOpt,
         curAfter cur₀ ls) := by
  induction ls with
  | nil =>
    intro c₀ p₀ cur₀
    simp [lineItemsFrom, curAfter]
  | cons l ls ih =>
    intro c₀ p₀ cur₀
    rw [List.foldl_cons]
    by_cases ht : _normalize_ws l.text = ""
    · have hstep : stepLine (c₀, p₀, cur₀) l = (c₀, p₀, cur₀) := by
        simp [stepLine, ht]
      rw [hstep, ih, lineItemsFrom, curAfter]
      simp [ht, linePayOpt, List.filterMap_cons]
    · cases hdet : detect_section_header (_normalize_ws l.text) with
      | some sec =>
        have hstep : stepLine (c₀, p₀, cur₀) l = (c₀, p₀, some sec) := by
          simp [stepLine, ht, hdet]
        rw [hstep, ih, lineItemsFrom, curAfter]
        simp [ht, hdet, linePayOpt, List.filterMap_cons]
      | none =>
        by_cases hpay : is_paymentish (_normalize_ws l.text) = true
        · have hstep : stepLine (c₀, p₀, cur₀) l =
              (c₀, p₀ ++ [paymentOfLine (_normalize_ws l.text) l.page], cur₀) := by
            simp [stepLine, ht, hdet, hpay]
          rw [hstep, ih, lineItemsFrom, curAfter]
          simp [ht, hdet, hpay, linePayOpt, List.filterMap_cons]
        · have hpay' : is_paymentish (_normalize_ws l.text) = false := by simpa using hpay
          cases ham : extract_amount_from_text (_normalize_ws l.text) with
          | none =>
            have hstep : stepLine (c₀, p₀, cur₀) l = (c₀, p₀, cur₀) := by
              simp [stepLine, ht, hdet, hpay', ham]
            rw [hstep, ih, lineItemsFrom, curAfter]
            simp [ht, hdet, hpay', ham, linePayOpt, List.filterMap_cons]
          | some amt =>
            by_cases hle : amt ≤ 0
            · have hstep : stepLine (c₀, p₀, cur₀) l = (c₀, p₀, cur₀) := by
                simp [stepLine, ht, hdet, hpay', ham, hle]
              rw [hstep, ih, lineItemsFrom, curAfter]
              simp [ht, hdet, hpay', ham, hle, linePayOpt, List.filterMap_cons]
            · have hstep : stepLine (c₀, p₀, cur₀) l =
                  (appendToCat c₀
                    (itemOfLine cur₀ (_normalize_ws l.text) l.page amt).category
                    (itemOfLine cur₀ (_normalize_ws l.text) l.page amt), p₀, cur₀) := by
                simp [stepLine, ht, hdet, hpay', ham, hle]
              rw [hstep, ih, lineItemsFrom, curAfter]
              have hpays : linePayOpt l = none := by
                simp [linePayOpt, ht, hdet, hpay']
              rw [List.filterMap_cons, hpays]
              simp only [ht, hdet, ham, hle, if_neg, ite_false]
              refine Prod.ext ?_ (by simp [ht, hdet])
              rw [appendToCat, List.map_map]
              refine List.map_congr_left ?_
              intro kv _
              by_cases hc : kv.1 = (itemOfLine cur₀ (_normalize_ws l.text) l.page amt).category
              · have hcat : (itemOfLine cur₀ (_normalize_ws l.text) l.page amt).category = kv.1 :=
                  hc.symm
                simp [Function.comp, if_pos hc, List.filter_cons, hcat, ht, hdet, hpay', ham,
                  hle]
              · have hcat :
                    ¬(itemOfLine cur₀ (_normalize_ws l.text) l.page amt).category = kv.1 :=
                  fun hh => hc hh.symm
                simp [Function.comp, if_neg hc, List.filter_cons, hcat, ht, hdet,
                  hpay', ham, hle]

theorem processLines_eq (ls : List InLine) :
    processLines ls =
      (emptyCategorized.map (fun kv =>
          (kv.1, (lineItemsFrom none ls).filter (fun it => it.category = kv.1))),
       ls.filterMap linePayOpt) := by
  rw [processLines, foldl_stepLine_eq]
  refine Prod.ext ?_ rfl
  dsimp only
  refine List.map_congr_left ?_
  intro kv hkv
  rcases List.mem_map.mp hkv with ⟨k, _, rfl⟩
  simp

/-! ## Shapes of produced items and payments -/

theorem categoryOf_mem (sec : Option String) : categoryOf sec ∈ CATEGORY_KEYS := by
  cases sec with
  | none => simp [categoryOf, CATEGORY_KEYS]
  | some s =>
    rw [categoryOf]
    by_cases hc : CATEGORY_KEYS.contains s
    · rw [if_pos hc]
      simpa using hc
    · rw [if_neg hc]
      simp [CATEGORY_KEYS]

theorem blockItemOpt_props (ev : List ((Int × ℚ) × String)) (b : InBlock) (it : LineItem)
    (h : blockItemOpt ev b = some it) :
    is_paymentish it.description = false ∧ 0 < it.amount ∧ it.category ∈ CATEGORY_KEYS ∧
      it.item_id = _make_id "item"
        [it.category, fmt2 it.amount, pyLower it.description, toString it.page] := by
  rw [blockItemOpt] at h
  by_cases hp : (is_paymentish (blockTextN b) || is_paymentish (blockDescN b)) = true
  · rw [if_pos hp] at h
    exact absurd h (by simp)
  · have hp' : is_paymentish (blockDescN b) = false := by
      have hor : (is_paymentish (blockTextN b) || is_paymentish (blockDescN b)) = false := by
        simpa using hp
      exact (Bool.or_eq_false_iff.mp hor).2
    rw [if_neg hp] at h
    cases ham : blockAmount b with
    | none =>
      rw [ham] at h
      exact absurd h (by simp)
    | some a =>
      rw [ham] at h
      dsimp only at h
      by_cases hle : a ≤ 0
      · rw [if_pos hle] at h
        exact absurd h (by simp)
      · rw [if_neg hle] at h
        have hit := Option.some.inj h
        subst hit
        exact ⟨hp', not_le.mp hle, categoryOf_mem _, rfl⟩

theorem blockPayOpt_id (b : InBlock) (p : PaymentEvent) (h : blockPayOpt b = some p) :
    p.payment_id = _make_id "payment"
      [p.reference.getD "", amountOrEmpty p.amount, pyLower p.description, toString p.page] := by
  rw [blockPayOpt] at h
  by_cases hp : (is_paymentish (blockTextN b) || is_paymentish (blockDescN b)) = true
  · rw [if_pos hp] at h
    have := Option.some.inj h
    subst this
    rfl
  · rw [if_neg hp] at h
    exact absurd h (by simp)

theorem linePayOpt_id (l : InLine) (p : PaymentEvent) (h : linePayOpt l = some p) :
    p.payment_id = _make_id "payment"
      [p.reference.getD "", amountOrEmpty p.amount, pyLower p.description, toString p.page] := by
  rw [linePayOpt] at h
  by_cases ht : _normalize_ws l.text = ""
  · rw [if_pos ht] at h
    exact absurd h (by simp)
  · rw [if_neg ht] at h
    cases hdet : detect_section_header (_normalize_ws l.text) with
    | some sec =>
      rw [hdet] at h
      exact absurd h (by simp)
    | none =>
      rw [hdet] at h
      by_cases hpay : is_paymentish (_normalize_ws l.text) = true
      · rw [if_pos hpay] at h
        have := Option.some.inj h
        subst this
        rfl
      · rw [if_neg hpay] at h
        exact absurd h (by simp)

theorem lineItemsFrom_props (ls : List InLine) :
    ∀ (cur : Option String), ∀ it ∈ lineItemsFrom cur ls,
      is_paymentish it.description = false ∧ 0 < it.amount ∧ it.category ∈ CATEGORY_KEYS ∧
        it.item_id = _make_id "item"
          [it.category, fmt2 it.amount, pyLower it.description, toString it.page] := by
  induction ls with
  | nil =>
    intro cur it hit
    exact absurd hit (by simp [lineItemsFrom])
  | cons l ls ih =>
    intro cur it hit
    rw [lineItemsFrom] at hit
    by_cases ht : _normalize_ws l.text = ""
    · rw [if_pos ht] at hit
      exact ih cur it hit
    · rw [if_neg ht] at hit
      cases hdet : detect_section_header (_normalize_ws l.text) with
      | some sec =>
        rw [hdet] at hit
        exact ih (some sec) it hit
      | none =>
        rw [hdet] at hit
        by_cases hpay : is_paymentish (_normalize_ws l.text) = true
        · rw [if_pos hpay] at hit
          exact ih cur it hit
        · rw [if_neg hpay] at hit
          cases ham : extract_amount_from_text (_normalize_ws l.text) with
          | none =>
            rw [ham] at hit
            exact ih cur it hit
          | some amt =>
            rw [ham] at hit
            dsimp only at hit
            by_cases hle : amt ≤ 0
            · rw [if_pos hle] at hit
              exact ih cur it hit
            · rw [if_neg hle] at hit
              rcases List.mem_cons.mp hit with hh | hh
              · subst hh
                refine ⟨by simpa using hpay, not_le.mp hle, ?_, rfl⟩
                cases cur with
                | none => simp [itemOfLine, CATEGORY_KEYS]
                | some s =>
                  by_cases hc : CATEGORY_KEYS.contains s
                  · have hcat : (itemOfLine (some s) (_normalize_ws l.text) l.page amt).category
                        = s := by
                      show (if CATEGORY_KEYS.contains s then s else "other") = s
                      rw [if_pos hc]
                    rw [hcat]
                    simpa using hc
                  · have hcat : (itemOfLine (some s) (_normalize_ws l.text) l.page amt).category
                        = "other" := by
                      show (if CATEGORY_KEYS.contains s then s else "other") = "other"
                      rw [if_neg hc]
                    rw [hcat]
                    simp [CATEGORY_KEYS]
              · exact ih cur it hh

/-! ## Membership in the categorized mapping -/

theorem mem_itemsAll_keymap (xs : List LineItem) (it : LineItem) :
    it ∈ itemsAll (CATEGORY_KEYS.map (fun k =>
        (k, xs.filter (fun i => i.category = k)))) ↔
      it ∈ xs ∧ it.category ∈ CATEGORY_KEYS := by
  rw [itemsAll, List.map_map]
  simp only [Function.comp, List.mem_flatten, List.mem_map]
  constructor
  · rintro ⟨l, ⟨k, hk, rfl⟩, hmem⟩
    rcases List.mem_filter.mp hmem with ⟨h1, h2⟩
    have hck : it.category = k := by simpa using h2
    exact ⟨h1, hck ▸ hk⟩
  · rintro ⟨hx, hc⟩
    exact ⟨xs.filter (fun i => i.category = it.category),
      ⟨it.category, hc, rfl⟩, List.mem_filter.mpr ⟨hx, by simp⟩⟩

theorem alookup_keymap {α : Type} (ks : List String) (w : String → α) (c : String)
    (hc : c ∈ ks) : alookup (ks.map (fun k => (k, w k))) c = some (w c) := by
  induction ks with
  | nil => exact absurd hc (by simp)
  | cons k rest ih =>
    rw [List.map_cons, alookup_cons]
    by_cases hk : k = c
    · subst hk
      rw [if_pos rfl]
    · rw [if_neg hk]
      exact ih (by rcases List.mem_cons.mp hc with h | h; exact absurd h.symm hk; exact h)

/-! ## Identifier disjointness -/

theorem joinBar_head_item (ps : List String) :
    (joinBar ("item" :: ps)).data.head? = some 'i' := by
  cases ps with
  | nil => rfl
  | cons a as => simp [joinBar, String.data_append]

theorem joinBar_head_payment (qs : List String) :
    (joinBar ("payment" :: qs)).data.head? = some 'p' := by
  cases qs with
  | nil => rfl
  | cons a as => simp [joinBar, String.data_append]

theorem make_id_item_ne_payment (ps qs : List String) :
    _make_id "item" ps ≠ _make_id "payment" qs := by
  intro h
  rw [_make_id, _make_id, sha1_hexdigest_model, sha1_hexdigest_model] at h
  have hd : ("sha1:" ++ joinBar ("item" :: ps)).data =
      ("sha1:" ++ joinBar ("payment" :: qs)).data := by rw [h]
  rw [String.data_append, String.data_append] at hd
  have hd2 := List.append_cancel_left hd
  have h1 := joinBar_head_item ps
  have h2 := joinBar_head_payment qs
  rw [hd2, h2] at h1
  exact absurd (Option.some.inj h1) (by decide)

/-! ## Unfolding `extract` -/

theorem catPays_blocks (o : OcrResult) (h : o.item_blocks ≠ []) :
    catPays o = processBlocks (eventsOf o) o.item_blocks := by
  rw [catPays, if_pos h]

theorem catPays_lines (o : OcrResult) (h : o.item_blocks = []) :
    catPays o = processLines (linesSorted o) := by
  rw [catPays, if_neg (fun hh => hh h)]

theorem extract_ok_fields (now : String) (o : OcrResult) (d : BillDoc)
    (h : extract now o = Except.ok d) :
    d.items = (catPays o).1 ∧ d.payments = (catPays o).2 ∧
      d.subtotals = (catPays o).1.map (fun kv => (kv.1, round2 (sumAmounts kv.2))) ∧
      d.grand_total = round2 (sumQ (d.subtotals.map Prod.snd)) ∧
      (itemsAll (catPays o).1).any (fun it => containsReceiptRef it.description) = false := by
  simp only [extract] at h
  by_cases hg :
      (itemsAll (catPays o).1).any (fun it => containsReceiptRef it.description) = true
  · rw [if_pos hg] at h
    exact absurd h (by simp)
  · have hg' :
        (itemsAll (catPays o).1).any (fun it => containsReceiptRef it.description) = false := by
      simpa using hg
    rw [if_neg hg] at h
    injection h with h2
    subst h2
    exact ⟨rfl, rfl, rfl, rfl, hg'⟩

theorem extract_error_iff (now : String) (o : OcrResult) :
    (∀ d, extract now o ≠ Except.ok d) ↔
      (itemsAll (catPays o).1).any (fun it => containsReceiptRef it.description) = true := by
  simp only [extract]
  by_cases hg :
      (itemsAll (catPays o).1).any (fun it => containsReceiptRef it.description) = true
  · rw [if_pos hg]
    simp [hg]
  · rw [if_neg hg]
    constructor
    · intro hall
      exact absurd rfl (hall _)
    · intro htrue
      exact absurd htrue hg

theorem catPays_items_form (o : OcrResult) :
    (catPays o).1 = CATEGORY_KEYS.map (fun k =>
      (k, (producedItems o).filter (fun it => it.category = k))) := by
  by_cases hb : o.item_blocks = []
  · rw [catPays_lines o hb, processLines_eq, producedItems, if_neg (fun hh => hh hb)]
    rw [emptyCategorized, List.map_map]
    rfl
  · rw [catPays_blocks o hb, processBlocks_eq, producedItems, if_pos hb]
    rw [emptyCategorized, List.map_map]
    rfl

theorem catPays_pays_form (o : OcrResult) : (catPays o).2 = producedPays o := by
  by_cases hb : o.item_blocks = []
  · rw [catPays_lines o hb, processLines_eq, producedPays, if_neg (fun hh => hh hb)]
  · rw [catPays_blocks o hb, processBlocks_eq, producedPays, if_pos hb]

theorem mem_finalItems_iff (o : OcrResult) (it : LineItem) :
    it ∈ itemsAll (catPays o).1 ↔ it ∈ producedItems o ∧ it.category ∈ CATEGORY_KEYS := by
  rw [catPays_items_form]
  exact mem_itemsAll_keymap _ it

theorem producedItems_props (o : OcrResult) (it : LineItem) (h : it ∈ producedItems o) :
    is_paymentish it.description = false ∧ 0 < it.amount ∧ it.category ∈ CATEGORY_KEYS ∧
      it.item_id = _make_id "item"
        [it.category, fmt2 it.amount, pyLower it.description, toString it.page] := by
  rw [producedItems] at h
  by_cases hb : o.item_blocks = []
  · rw [if_neg (fun hh => hh hb)] at h
    exact lineItemsFrom_props (linesSorted o) none it h
  · rw [if_pos hb] at h
    rcases List.mem_filterMap.mp h with ⟨b, _, hbop⟩
    exact blockItemOpt_props (eventsOf o) b it hbop

theorem producedPays_id (o : OcrResult) (p : PaymentEvent) (h : p ∈ producedPays o) :
    p.payment_id = _make_id "payment"
      [p.reference.getD "", amountOrEmpty p.amount, pyLower p.description, toString p.page] := by
  rw [producedPays] at h
  by_cases hb : o.item_blocks = []
  · rw [if_neg (fun hh => hh hb)] at h
    rcases List.mem_filterMap.mp h with ⟨l, _, hlop⟩
    exact linePayOpt_id l p hlop
  · rw [if_pos hb] at h
    rcases List.mem_filterMap.mp h with ⟨b, _, hbop⟩
    exact blockPayOpt_id b p hbop

theorem mem_itemsAll_of (m : List (String × List LineItem)) (kv : String × List LineItem)
    (it : LineItem) (hkv : kv ∈ m) (hit : it ∈ kv.2) : it ∈ itemsAll m := by
  rw [itemsAll, List.mem_flatten]
  exact ⟨kv.2, List.mem_map.mpr ⟨kv, hkv, rfl⟩, hit⟩

/-! # Claims -/

/-- C1, counterexample to the claim as stated: the line `"Transaction"`
matches the payment pattern `\bTRANSACTION\b`, extraction (line-based
fallback path) succeeds on an input containing exactly that line, yet the
produced document's payments sequence is empty — the line was consumed as a
section header (its text contains the radiology keyword `ct`) before the
payment check ran, so it was not routed to the payments sequence. -/
theorem claim_C1_counterexample :
    is_paymentish "Transaction" = true ∧
      cexC1in.lines = [⟨"Transaction", 1, none, 0⟩] ∧ cexC1in.item_blocks = [] ∧
      extract "T" cexC1in = Except.ok cexC1doc ∧
      cexC1doc.payments = [] := by
  refine ⟨by decide, rfl, rfl, rfl, by decide⟩

/-- C1, amended: a fragment matching a payment pattern is routed to the
payments sequence — except that in the line-based fallback path a
payment-matching line that is first recognized as a section header is
consumed as the section header and becomes neither item nor payment.  In
all cases no line item's description matches a payment pattern, and no item
identifier ever equals a payment identifier, so the items mapping and the
payments sequence share no entry. -/
theorem claim_C1_amended (now : String) (o : OcrResult) (d : BillDoc)
    (h : extract now o = Except.ok d) :
    (∀ kv ∈ d.items, ∀ it ∈ kv.2, is_paymentish it.description = false) ∧
      (∀ kv ∈ d.items, ∀ it ∈ kv.2, ∀ p ∈ d.payments, it.item_id ≠ p.payment_id) ∧
      (o.item_blocks ≠ [] → ∀ b ∈ o.item_blocks,
        (is_paymentish (blockTextN b) || is_paymentish (blockDescN b)) = true →
        paymentOfBlock b ∈ d.payments) ∧
      (o.item_blocks = [] → ∀ l ∈ linesSorted o,
        _normalize_ws l.text ≠ "" →
        detect_section_header (_normalize_ws l.text) = none →
        is_paymentish (_normalize_ws l.text) = true →
        paymentOfLine (_normalize_ws l.text) l.page ∈ d.payments) := by
  obtain ⟨hi, hp, -, -, -⟩ := extract_ok_fields now o d h
  have hitems : ∀ kv ∈ d.items, ∀ it ∈ kv.2, it ∈ producedItems o := by
    intro kv hkv it hit
    have hall : it ∈ itemsAll (catPays o).1 := by
      rw [← hi]
      exact mem_itemsAll_of d.items kv it hkv hit
    exact ((mem_finalItems_iff o it).mp hall).1
  refine ⟨?_, ?_, ?_, ?_⟩
  · intro kv hkv it hit
    exact (producedItems_props o it (hitems kv hkv it hit)).1
  · intro kv hkv it hit p hpmem
    have hid := (producedItems_props o it (hitems kv hkv it hit)).2.2.2
    have hpid : p ∈ producedPays o := by
      rw [← catPays_pays_form o, ← hp]
      exact hpmem
    have hpidf := producedPays_id o p hpid
    rw [hid, hpidf]
    exact make_id_item_ne_payment _ _
  · intro hb b hbmem hpay
    rw [hp, catPays_pays_form o, producedPays, if_pos hb]
    exact List.mem_filterMap.mpr ⟨b, hbmem, by rw [blockPayOpt, if_pos hpay]⟩
  · intro hb l hlmem ht hdet hpay
    rw [hp, catPays_pays_form o, producedPays, if_neg (fun hh => hh hb)]
    refine List.mem_filterMap.mpr ⟨l, hlmem, ?_⟩
    rw [linePayOpt, if_neg ht, hdet]
    dsimp only
    rw [if_pos hpay]

/-- C1, amended, witness: a blocks-path run with one receipt row and one
medical row, instantiating every hypothesis of the amended theorem. -/
theorem claim_C1_amended_witness :
    (∀ kv ∈ wC1doc.items, ∀ it ∈ kv.2, is_paymentish it.description = false) ∧
      (∀ kv ∈ wC1doc.items, ∀ it ∈ kv.2, ∀ p ∈ wC1doc.payments, it.item_id ≠ p.payment_id) ∧
      (wC1in.item_blocks ≠ [] → ∀ b ∈ wC1in.item_blocks,
        (is_paymentish (blockTextN b) || is_paymentish (blockDescN b)) = true →
        paymentOfBlock b ∈ wC1doc.payments) ∧
      (wC1in.item_blocks = [] → ∀ l ∈ linesSorted wC1in,
        _normalize_ws l.text ≠ "" →
        detect_section_header (_normalize_ws l.text) = none →
        is_paymentish (_normalize_ws l.text) = true →
        paymentOfLine (_normalize_ws l.text) l.page ∈ wC1doc.payments) :=
  claim_C1_amended "T" wC1in wC1doc rfl

/-- C3: extraction refuses to return a document exactly when some finalized
line item's description contains the receipt-reference token `RCPO-`
(upper-cased containment, as the guardrail checks); and every document that
extraction does return has no line item whose description contains the
token. -/
theorem claim_C3 (now : String) (o : OcrResult) :
    ((∀ d, extract now o ≠ Except.ok d) ↔
      ∃ it ∈ finalItems o, containsReceiptRef it.description = true) ∧
      (∀ d, extract now o = Except.ok d →
        ∀ kv ∈ d.items, ∀ it ∈ kv.2, containsReceiptRef it.description = false) := by
  constructor
  · rw [extract_error_iff now o, finalItems]
    rw [List.any_eq_true]
  · intro d h kv hkv it hit
    obtain ⟨hi, -, -, -, hg⟩ := extract_ok_fields now o d h
    have hall : it ∈ itemsAll (catPays o).1 := by
      rw [← hi]
      exact mem_itemsAll_of d.items kv it hkv hit
    have := List.any_eq_false.mp hg it hall
    simpa using this

/-- C3, witness: a row whose description carries `RCPO-` without a
following alphanumeric (so it is not payment-like and becomes a finalized
item) makes extraction abort; instantiates both directions at a concrete
input. -/
theorem claim_C3_witness :
    ((∀ d, extract "T" wC3in ≠ Except.ok d) ↔
      ∃ it ∈ finalItems wC3in, containsReceiptRef it.description = true) ∧
      (∀ d, extract "T" wC3in = Except.ok d →
        ∀ kv ∈ d.items, ∀ it ∈ kv.2, containsReceiptRef it.description = false) :=
  claim_C3 "T" wC3in

/-- C4: in every returned document, each category's subtotal is the sum of
that category's item amounts rounded to two decimals, and the grand total
is the sum of the subtotal values rounded to two decimals. -/
theorem claim_C4 (now : String) (o : OcrResult) (d : BillDoc)
    (h : extract now o = Except.ok d) :
    (∀ kv ∈ d.items, alookup d.subtotals kv.1 =
        some (round2 ((kv.2.map (fun it => it.amount)).sum))) ∧
      d.grand_total = round2 ((d.subtotals.map Prod.snd).sum) := by
  obtain ⟨hi, -, hs, hg, -⟩ := extract_ok_fields now o d h
  constructor
  · intro kv hkv
    rw [hi, catPays_items_form o] at hkv
    rcases List.mem_map.mp hkv with ⟨k, hk, rfl⟩
    rw [hs, catPays_items_form o, List.map_map]
    have := alookup_keymap CATEGORY_KEYS
      (fun k => round2 (sumAmounts ((producedItems o).filter (fun it => it.category = k)))) k hk
    rw [show ((fun kv => (kv.1, round2 (sumAmounts kv.2))) ∘ fun k =>
        (k, (producedItems o).filter (fun it => it.category = k))) = fun k =>
        (k, round2 (sumAmounts ((producedItems o).filter (fun it => it.category = k))))
      from rfl]
    rw [this]
    dsimp only
    rw [sumAmounts_eq]
  · rw [hg, sumQ_eq]

/-- C4, witness: a two-row document with items 12.50 and 7.25 in the
`other` category, instantiating the totals theorem. -/
theorem claim_C4_witness :
    (∀ kv ∈ wC4doc.items, alookup wC4doc.subtotals kv.1 =
        some (round2 ((kv.2.map (fun it => it.amount)).sum))) ∧
      wC4doc.grand_total = round2 ((wC4doc.subtotals.map Prod.snd).sum) :=
  claim_C4 "T" wC4in wC4doc rfl

/-- C5: every produced item identifier is the content hash of (category,
amount formatted to two decimals, lower-cased description, page), every
payment identifier is the content hash of (reference or empty, amount or
empty, lower-cased description, page), and two runs over the same input
produce the same items and payments (hence identical identifiers). -/
theorem claim_C5 (now : String) (o : OcrResult) (d : BillDoc)
    (h : extract now o = Except.ok d) :
    (∀ kv ∈ d.items, ∀ it ∈ kv.2, it.item_id = _make_id "item"
        [it.category, fmt2 it.amount, pyLower it.description, toString it.page]) ∧
      (∀ p ∈ d.payments, p.payment_id = _make_id "payment"
        [p.reference.getD "", amountOrEmpty p.amount, pyLower p.description,
          toString p.page]) ∧
      (∀ now2 d2, extract now2 o = Except.ok d2 →
        d.items = d2.items ∧ d.payments = d2.payments) := by
  obtain ⟨hi, hp, -, -, -⟩ := extract_ok_fields now o d h
  refine ⟨?_, ?_, ?_⟩
  · intro kv hkv it hit
    have hall : it ∈ itemsAll (catPays o).1 := by
      rw [← hi]
      exact mem_itemsAll_of d.items kv it hkv hit
    exact (producedItems_props o it ((mem_finalItems_iff o it).mp hall).1).2.2.2
  · intro p hpmem
    have hpid : p ∈ producedPays o := by
      rw [← catPays_pays_form o, ← hp]
      exact hpmem
    exact producedPays_id o p hpid
  · intro now2 d2 h2
    obtain ⟨hi2, hp2, -, -, -⟩ := extract_ok_fields now2 o d2 h2
    exact ⟨hi.trans hi2.symm, hp.trans hp2.symm⟩

/-- C5, witness: a run with one item and one payment, instantiating the
identifier theorem (including a second run with a different timestamp). -/
theorem claim_C5_witness :
    (∀ kv ∈ wC5doc.items, ∀ it ∈ kv.2, it.item_id = _make_id "item"
        [it.category, fmt2 it.amount, pyLower it.description, toString it.page]) ∧
      (∀ p ∈ wC5doc.payments, p.payment_id = _make_id "payment"
        [p.reference.getD "", amountOrEmpty p.amount, pyLower p.description,
          toString p.page]) ∧
      (∀ now2 d2, extract now2 wC5in = Except.ok d2 →
        wC5doc.items = d2.items ∧ wC5doc.payments = d2.payments) :=
  claim_C5 "T" wC5in wC5doc rfl

/-- C6: on the item-blocks path, each category's item list of the returned
document is exactly the blocks mapped through `blockItemOpt` (payments
excluded first; amount from the last column, scanned in reverse, from which
an amount parses, else the trailing amount of the full block text; blocks
with no amount or a non-positive amount produce no item) restricted to that
category. -/
theorem claim_C6 (now : String) (o : OcrResult) (d : BillDoc)
    (hb : o.item_blocks ≠ []) (h : extract now o = Except.ok d) :
    ∀ c ∈ CATEGORY_KEYS, alookup d.items c =
      some ((o.item_blocks.filterMap (blockItemOpt (eventsOf o))).filter
        (fun it => it.category = c)) := by
  intro c hc
  obtain ⟨hi, -, -, -, -⟩ := extract_ok_fields now o d h
  rw [hi, catPays_items_form o, producedItems, if_pos hb]
  exact alookup_keymap CATEGORY_KEYS _ c hc

/-- C6, witness: two blocks — one whose amount comes from its last parseable
column, one whose only parseable amount is 0 and which is therefore dropped
— instantiating the item-blocks characterization. -/
theorem claim_C6_witness :
    alookup wC6doc.items "medicines" =
      some ((wC6in.item_blocks.filterMap (blockItemOpt (eventsOf wC6in))).filter
        (fun it => it.category = "medicines")) :=
  claim_C6 "T" wC6in wC6doc (by decide) rfl "medicines" (by decide)

/-- C2: once a validated candidate has been retained for a field, offering
any sequence of later candidates never changes the retained value, provided
the retained value still passes validation (with these static rules it
always does): the first validated candidate is final. -/
theorem claim_C2 (best : List (String × Candidate)) (f : String) (c : Candidate)
    (hc : alookup best f = some c) (hv : _validate c.field c.value = true)
    (cands : List Candidate) :
    alookup (cands.foldl offer best) f = some c := by
  induction cands generalizing best with
  | nil => exact hc
  | cons cand rest ih =>
    rw [List.foldl_cons]
    refine ih (offer best cand) ?_
    rw [offer]
    by_cases hval : _validate cand.field cand.value = true
    · rw [if_neg (by simp [hval])]
      by_cases hf : cand.field = f
      · rw [hf, hc]
        dsimp only
        rw [if_neg (by simp [hv])]
        exact hc
      · cases hl : alookup best cand.field with
        | none =>
          dsimp only
          rw [alookup_aset_ne best cand.field f cand hf]
          exact hc
        | some cur =>
          dsimp only
          by_cases hcv : _validate cur.field cur.value = true
          · rw [if_neg (by simp [hcv])]
            exact hc
          · rw [if_pos (by simp [Bool.eq_false_iff.mpr hcv])]
            rw [alookup_aset_ne best cand.field f cand hf]
            exact hc
    · rw [if_pos (by simp [Bool.eq_false_iff.mpr hval])]
      exact hc

/-- C2, witness: a locked valid patient name survives two later offers for
the same field. -/
theorem claim_C2_witness :
    alookup ([("patient_name", ⟨"patient_name", "John Doe", 1, 0⟩)] :
        List (String × Candidate)) "patient_name" =
      some ⟨"patient_name", "John Doe", 1, 0⟩ ∧
    _validate "patient_name" "John Doe" = true ∧
    alookup (([⟨"patient_name", "Jane Roe", 1, 1⟩, ⟨"patient_name", "Mary Sue", 1, 2⟩] :
          List Candidate).foldl offer
        [("patient_name", ⟨"patient_name", "John Doe", 1, 0⟩)]) "patient_name" =
      some ⟨"patient_name", "John Doe", 1, 0⟩ :=
  ⟨by decide, by decide,
    claim_C2 [("patient_name", ⟨"patient_name", "John Doe", 1, 0⟩)] "patient_name"
      ⟨"patient_name", "John Doe", 1, 0⟩ (by decide) (by decide)
      [⟨"patient_name", "Jane Roe", 1, 1⟩, ⟨"patient_name", "Mary Sue", 1, 2⟩]⟩

theorem find?_eq_of_first {α : Type} (l : List α) (p : α → Bool) :
    ∀ (i : Nat) (x : α), l.get? i = some x → p x = true →
      (l.take i).all (fun y => !p y) = true → l.find? p = some x := by
  induction l with
  | nil =>
    intro i x hget _ _
    exact absurd hget (by simp)
  | cons a rest ih =>
    intro i x hget hx hbef
    cases i with
    | zero =>
      have ha : a = x := Option.some.inj hget
      subst ha
      rw [List.find?_cons_of_pos _ hx]
    | succ j =>
      have hpa' : p a = false := by
        cases hph : p a
        · rfl
        · rw [List.take_succ_cons, List.all_cons, hph] at hbef
          simp at hbef
      rw [List.take_succ_cons, List.all_cons, hpa'] at hbef
      have hrest : (rest.take j).all (fun y => !p y) = true := by simpa using hbef
      rw [List.find?_cons_of_neg _ (by simp [hpa'])]
      exact ih j x (by simpa using hget) hx hrest

/-- C10: when a short line's lower-cased text contains keywords of several
categories, section-header detection returns the first matching category in
the fixed insertion order of `SECTION_HEADERS` — medicines,
diagnostics_tests, radiology, consultation, hospitalization, packages,
administrative, implants_devices, surgical_consumables. -/
theorem claim_C10 (text : String) (i : Nat) (c : String) (kws : List String)
    (hne : text ≠ "")
    (hlen : (pyStrip (pyLower text)).length ≤ 80)
    (hamt : endsWithAmount (pyStrip (pyLower text)) = false)
    (hget : SECTION_HEADERS.get? i = some (c, kws))
    (hmatch : kws.any (fun k => containsSub k (pyStrip (pyLower text))) = true)
    (hbefore : (SECTION_HEADERS.take i).all
      (fun sk => !sk.2.any (fun k => containsSub k (pyStrip (pyLower text)))) = true) :
    SECTION_HEADERS.map Prod.fst =
      ["medicines", "diagnostics_tests", "radiology", "consultation", "hospitalization",
       "packages", "administrative", "implants_devices", "surgical_consumables"] ∧
      detect_section_header text = some c := by
  refine ⟨by decide, ?_⟩
  rw [detect_section_header, if_neg hne]
  dsimp only
  rw [if_neg (not_lt.mpr hlen), if_neg (by simp [hamt])]
  have hfind := find?_eq_of_first SECTION_HEADERS
    (fun sk => sk.2.any (fun k => containsSub k (pyStrip (pyLower text)))) i (c, kws)
    hget hmatch hbefore
  rw [hfind]
  rfl

/-- C10, witness: "Surgical Ward" contains both the surgical_consumables
keyword `surgical` and the hospitalization keyword `ward`; detection
resolves it to hospitalization (index 4), not surgical_consumables. -/
theorem claim_C10_witness :
    (SECTION_HEADERS.map Prod.fst =
      ["medicines", "diagnostics_tests", "radiology", "consultation", "hospitalization",
       "packages", "administrative", "implants_devices", "surgical_consumables"] ∧
      detect_section_header "Surgical Ward" = some "hospitalization") :=
  claim_C10 "Surgical Ward" 4 "hospitalization"
    ["hospitalisation", "hospitalization", "room", "ward", "bed", "icu", "nursing"]
    (by decide) (by decide) (by decide) (by decide) (by decide) (by decide)

/-! ## Binary-search lookup (for C7) -/

theorem keyLt_eq_not_keyLe (x k : Int × ℚ) : keyLt x k = !keyLe k x := by
  rw [keyLt, keyLe]
  rcases lt_trichotomy x.1 k.1 with h | h | h
  · have h2 : ¬k.1 < x.1 := by omega
    have h3 : ¬k.1 = x.1 := by omega
    simp [h, h2, h3]
  · have h2 : ¬x.1 < k.1 := by omega
    have h3 : ¬k.1 < x.1 := by omega
    rcases le_or_lt k.2 x.2 with h4 | h4
    · have h5 : ¬x.2 < k.2 := not_lt.mpr h4
      simp [h, h2, h3, h4, h5]
    · have h5 : ¬k.2 ≤ x.2 := not_le.mpr h4
      simp [h, h2, h3, h4, h5]
  · have h2 : ¬x.1 < k.1 := by omega
    have h3 : ¬x.1 = k.1 := by omega
    simp [h, h2, h3]

theorem keyLe_trans (a b c : Int × ℚ) (h1 : keyLe a b = true) (h2 : keyLe b c = true) :
    keyLe a c = true := by
  rw [keyLe] at *
  simp only [Bool.or_eq_true, Bool.and_eq_true, decide_eq_true_eq] at *
  rcases h1 with h1 | ⟨h1a, h1b⟩
  · rcases h2 with h2 | ⟨h2a, h2b⟩
    · exact Or.inl (by omega)
    · exact Or.inl (by omega)
  · rcases h2 with h2 | ⟨h2a, h2b⟩
    · exact Or.inl (by omega)
    · exact Or.inr ⟨by omega, le_trans h1b h2b⟩

/-- In an ascending key list, the keys at or below the query form exactly
the prefix counted by `takeWhile`. -/
theorem sorted_keyLe_iff (x : Int × ℚ) (keys : List (Int × ℚ)) :
    keysSortedB keys = true → ∀ i, i < keys.length →
      (keyLe (keys.getD i (0, 0)) x = true ↔
        i < (keys.takeWhile (fun k => keyLe k x)).length) := by
  induction keys with
  | nil =>
    intro _ i hi
    exact absurd hi (by simp)
  | cons k rest ih =>
    intro hs i hi
    rw [keysSortedB] at hs
    rcases Bool.and_eq_true_iff.mp hs with ⟨hall, hrest⟩
    cases i with
    | zero =>
      rw [List.getD_eq_getElem?_getD]
      simp only [List.getElem?_cons_zero, Option.getD_some]
      cases hk : keyLe k x with
      | true =>
        have htw : List.takeWhile (fun k2 => keyLe k2 x) (k :: rest) =
            k :: List.takeWhile (fun k2 => keyLe k2 x) rest := by
          simp [List.takeWhile_cons, hk]
        rw [htw]
        simp
      | false =>
        have htw : List.takeWhile (fun k2 => keyLe k2 x) (k :: rest) = [] := by
          simp [List.takeWhile_cons, hk]
        rw [htw]
        simp [hk]
    | succ j =>
      have hj : j < rest.length := by simpa using hi
      have hget : (k :: rest).getD (j + 1) (0, 0) = rest.getD j (0, 0) := rfl
      rw [hget]
      cases hk : keyLe k x with
      | true =>
        have htw : List.takeWhile (fun k2 => keyLe k2 x) (k :: rest) =
            k :: List.takeWhile (fun k2 => keyLe k2 x) rest := by
          simp [List.takeWhile_cons, hk]
        rw [htw]
        rw [ih hrest j hj]
        simp only [List.length_cons]
        omega
      | false =>
        have htw : List.takeWhile (fun k2 => keyLe k2 x) (k :: rest) = [] := by
          simp [List.takeWhile_cons, hk]
        rw [htw]
        simp only [List.length_nil, Nat.not_lt_zero, iff_false]
        intro hcon
        have hmem : rest.getD j (0, 0) ∈ rest := by
          rw [List.getD_eq_getElem?_getD, List.getElem?_eq_getElem hj]
          exact List.getElem_mem hj
        have hkj : keyLe k (rest.getD j (0, 0)) = true := by
          have := List.all_eq_true.mp hall _ hmem
          simpa using this
        have := keyLe_trans k (rest.getD j (0, 0)) x hkj hcon
        rw [this] at hk
        exact absurd hk (by decide)

/-- The fueled `bisect_right` loop returns the takeWhile count whenever the
invariant `lo ≤ cnt ≤ hi` holds and the fuel covers the interval. -/
theorem bisectGo_spec (keys : List (Int × ℚ)) (x : Int × ℚ)
    (hchar : ∀ i, i < keys.length →
      (keyLe (keys.getD i (0, 0)) x = true ↔
        i < (keys.takeWhile (fun k => keyLe k x)).length)) :
    ∀ (fuel lo hi : Nat), hi - lo ≤ fuel →
      lo ≤ (keys.takeWhile (fun k => keyLe k x)).length →
      (keys.takeWhile (fun k => keyLe k x)).length ≤ hi →
      hi ≤ keys.length →
      bisectGo keys x fuel lo hi = (keys.takeWhile (fun k => keyLe k x)).length := by
  intro fuel
  induction fuel with
  | zero =>
    intro lo hi hfuel hlo hhi hlen
    rw [bisectGo]
    omega
  | succ fuel ih =>
    intro lo hi hfuel hlo hhi hlen
    rw [bisectGo]
    by_cases h : lo < hi
    · rw [if_pos h]
      have hmid2 : (lo + hi) / 2 < hi := by omega
      have hmid1 : lo ≤ (lo + hi) / 2 := by omega
      have hmidlen : (lo + hi) / 2 < keys.length := lt_of_lt_of_le hmid2 hlen
      dsimp only
      cases hk : keyLe (keys.getD ((lo + hi) / 2) (0, 0)) x with
      | true =>
        have hlt : (lo + hi) / 2 < (keys.takeWhile (fun k => keyLe k x)).length :=
          (hchar _ hmidlen).mp hk
        have hklt : keyLt x (keys.getD ((lo + hi) / 2) (0, 0)) = false := by
          rw [keyLt_eq_not_keyLe, hk]
          rfl
        rw [hklt]
        rw [if_neg (by simp)]
        exact ih ((lo + hi) / 2 + 1) hi (by omega) (by omega) hhi hlen
      | false =>
        have hge : (keys.takeWhile (fun k => keyLe k x)).length ≤ (lo + hi) / 2 := by
          by_contra hcon
          have := (hchar _ hmidlen).mpr (by omega)
          rw [this] at hk
          exact absurd hk (by decide)
        have hklt : keyLt x (keys.getD ((lo + hi) / 2) (0, 0)) = true := by
          rw [keyLt_eq_not_keyLe, hk]
          rfl
        rw [hklt]
        rw [if_pos rfl]
        exact ih lo ((lo + hi) / 2) (by omega) hlo hge (le_of_lt hmidlen)
    · rw [if_neg h]
      omega

theorem eventsSortedB_keys (es : List ((Int × ℚ) × String)) (hs : eventsSortedB es = true) :
    keysSortedB (es.map Prod.fst) = true := by
  induction es with
  | nil => rfl
  | cons e rest ih =>
    rw [eventsSortedB] at hs
    rcases Bool.and_eq_true_iff.mp hs with ⟨hall, hrest⟩
    rw [List.map_cons, keysSortedB]
    refine Bool.and_eq_true_iff.mpr ⟨?_, ih hrest⟩
    rw [List.all_eq_true]
    intro k hk
    rcases List.mem_map.mp hk with ⟨e2, he2, rfl⟩
    have := List.all_eq_true.mp hall e2 he2
    simpa using this

theorem sorted_filter_eq_takeWhile (x : Int × ℚ) (es : List ((Int × ℚ) × String))
    (hs : eventsSortedB es = true) :
    es.filter (fun e => keyLe e.1 x) = es.takeWhile (fun e => keyLe e.1 x) := by
  induction es with
  | nil => rfl
  | cons e rest ih =>
    rw [eventsSortedB] at hs
    rcases Bool.and_eq_true_iff.mp hs with ⟨hall, hrest⟩
    cases hk : keyLe e.1 x with
    | true =>
      have hf : List.filter (fun e2 => keyLe e2.1 x) (e :: rest) =
          e :: List.filter (fun e2 => keyLe e2.1 x) rest := by
        simp [List.filter_cons, hk]
      have htw : List.takeWhile (fun e2 => keyLe e2.1 x) (e :: rest) =
          e :: List.takeWhile (fun e2 => keyLe e2.1 x) rest := by
        simp [List.takeWhile_cons, hk]
      rw [hf, htw, ih hrest]
    | false =>
      have hf : List.filter (fun e2 => keyLe e2.1 x) (e :: rest) =
          List.filter (fun e2 => keyLe e2.1 x) rest := by
        simp [List.filter_cons, hk]
      have htw : List.takeWhile (fun e2 => keyLe e2.1 x) (e :: rest) = [] := by
        simp [List.takeWhile_cons, hk]
      rw [hf, htw]
      rw [List.filter_eq_nil_iff]
      intro e2 he2
      intro hcon
      have hke2 : keyLe e.1 e2.1 = true := by
        have := List.all_eq_true.mp hall e2 he2
        simpa using this
      have := keyLe_trans e.1 e2.1 x hke2 (by simpa using hcon)
      rw [this] at hk
      exact absurd hk (by decide)

theorem takeWhile_keys_length (x : Int × ℚ) (es : List ((Int × ℚ) × String)) :
    ((es.map Prod.fst).takeWhile (fun k => keyLe k x)).length =
      (es.takeWhile (fun e => keyLe e.1 x)).length := by
  induction es with
  | nil => rfl
  | cons e rest ih =>
    rw [List.map_cons]
    cases hk : keyLe e.1 x with
    | true =>
      have h1 : List.takeWhile (fun k => keyLe k x) (e.1 :: rest.map Prod.fst) =
          e.1 :: List.takeWhile (fun k => keyLe k x) (rest.map Prod.fst) := by
        simp [List.takeWhile_cons, hk]
      have h2 : List.takeWhile (fun e2 => keyLe e2.1 x) (e :: rest) =
          e :: List.takeWhile (fun e2 => keyLe e2.1 x) rest := by
        simp [List.takeWhile_cons, hk]
      rw [h1, h2]
      simp only [List.length_cons, ih]
    | false =>
      have h1 : List.takeWhile (fun k => keyLe k x) (e.1 :: rest.map Prod.fst) = [] := by
        simp [List.takeWhile_cons, hk]
      have h2 : List.takeWhile (fun e2 => keyLe e2.1 x) (e :: rest) = [] := by
        simp [List.takeWhile_cons, hk]
      rw [h1, h2]
      rfl

theorem takeWhile_getLast (q : ((Int × ℚ) × String) → Bool)
    (es : List ((Int × ℚ) × String)) (n : Nat) (hn : (es.takeWhile q).length = n)
    (h0 : 0 < n) : (es.takeWhile q).getLast? = es[n - 1]? := by
  have htake : es.takeWhile q = es.take n := by
    rw [← hn]
    exact List.prefix_iff_eq_take.mp (List.takeWhile_prefix q)
  have hle : n ≤ es.length := by
    rw [← hn]
    exact (List.takeWhile_prefix q).length_le
  rw [List.getLast?_eq_getElem?, htake, List.length_take, List.getElem?_take]
  rw [min_eq_left hle, if_pos (by omega)]

/-- C7: over any ascending (page, y)-sorted list of section events,
`section_at` returns the tag of the last event in list order whose key is
at or before the query — that is, the event with the greatest key at or
before the query, the last-inserted one among events sharing that key — and
none when no event key is at or before the query. -/
theorem claim_C7 (es : List ((Int × ℚ) × String)) (hs : eventsSortedB es = true)
    (page : Int) (y : ℚ) :
    section_at es page y = lastAtOrBefore es page y := by
  by_cases hnil : es.map Prod.fst = []
  · have hesnil : es = [] := by
      cases es with
      | nil => rfl
      | cons e rest => simp at hnil
    subst hesnil
    rfl
  · have hchar := sorted_keyLe_iff (page, y) (es.map Prod.fst) (eventsSortedB_keys es hs)
    have hcntle : ((es.map Prod.fst).takeWhile (fun k => keyLe k (page, y))).length ≤
        (es.map Prod.fst).length :=
      (List.takeWhile_prefix _).length_le
    have hbis : bisect_right (es.map Prod.fst) (page, y) =
        ((es.map Prod.fst).takeWhile (fun k => keyLe k (page, y))).length := by
      rw [bisect_right]
      exact bisectGo_spec (es.map Prod.fst) (page, y) hchar (es.map Prod.fst).length 0
        (es.map Prod.fst).length (by omega) (by omega) hcntle (le_refl _)
    have hlen : (es.takeWhile (fun e => keyLe e.1 (page, y))).length =
        ((es.map Prod.fst).takeWhile (fun k => keyLe k (page, y))).length :=
      (takeWhile_keys_length (page, y) es).symm
    simp only [section_at, lastAtOrBefore]
    rw [if_neg hnil, hbis, sorted_filter_eq_takeWhile (page, y) es hs]
    by_cases h0 : ((es.map Prod.fst).takeWhile (fun k => keyLe k (page, y))).length = 0
    · rw [if_pos h0]
      have : es.takeWhile (fun e => keyLe e.1 (page, y)) = [] :=
        List.length_eq_zero.mp (hlen.trans h0)
      rw [this]
      rfl
    · rw [if_neg h0]
      have hget := takeWhile_getLast (fun e => keyLe e.1 (page, y)) es
        ((es.map Prod.fst).takeWhile (fun k => keyLe k (page, y))).length hlen
        (Nat.pos_of_ne_zero h0)
      rw [hget, List.get?_eq_getElem?, List.getElem?_map]

/-- C7, witness: three sorted events, two sharing the key (0, 10) — the
lookup at (0, 10) returns the later-inserted of the tied events, and a
query before all events returns none. -/
theorem claim_C7_witness :
    eventsSortedB [((0, 5), "medicines"), ((0, 10), "radiology"), ((0, 10), "consultation")]
        = true ∧
      section_at [((0, 5), "medicines"), ((0, 10), "radiology"), ((0, 10), "consultation")] 0 10
        = lastAtOrBefore
          [((0, 5), "medicines"), ((0, 10), "radiology"), ((0, 10), "consultation")] 0 10 ∧
      section_at [((0, 5), "medicines"), ((0, 10), "radiology"), ((0, 10), "consultation")] 0 10
        = some "consultation" ∧
      section_at [((0, 5), "medicines"), ((0, 10), "radiology"), ((0, 10), "consultation")] 0 1
        = none :=
  ⟨by decide,
    claim_C7 [((0, 5), "medicines"), ((0, 10), "radiology"), ((0, 10), "consultation")]
      (by decide) 0 10,
    by decide, by decide⟩

/-! ## Row clustering (for C8) -/

theorem minListQ_le (xs : List ℚ) :
    ∀ x, minListQ x xs ≤ x ∧ ∀ y ∈ xs, minListQ x xs ≤ y := by
  induction xs with
  | nil =>
    intro x
    exact ⟨le_refl x, by simp⟩
  | cons a rest ih =>
    intro x
    rw [minListQ, List.foldl_cons]
    rcases ih (qMin x a) with ⟨h1, h2⟩
    rw [minListQ] at h1 h2
    have hxa : qMin x a ≤ x := by
      rw [qMin_eq]
      exact min_le_left x a
    have haa : qMin x a ≤ a := by
      rw [qMin_eq]
      exact min_le_right x a
    refine ⟨le_trans h1 hxa, ?_⟩
    intro y hy
    rcases List.mem_cons.mp hy with rfl | hy2
    · exact le_trans h1 haa
    · exact h2 y hy2

theorem minListQ_mem (xs : List ℚ) :
    ∀ x, minListQ x xs = x ∨ minListQ x xs ∈ xs := by
  induction xs with
  | nil =>
    intro x
    exact Or.inl rfl
  | cons a rest ih =>
    intro x
    rw [minListQ, List.foldl_cons]
    have hstep := ih (qMin x a)
    rw [minListQ] at hstep
    rcases hstep with heq | hmem
    · rcases min_choice x a with hxa | hxa
      · exact Or.inl (by rw [heq, qMin_eq, hxa])
      · refine Or.inr (List.mem_cons.mpr (Or.inl ?_))
        rw [heq, qMin_eq, hxa]
    · exact Or.inr (List.mem_cons.mpr (Or.inr hmem))

theorem le_maxListQ (xs : List ℚ) :
    ∀ x, x ≤ maxListQ x xs ∧ ∀ y ∈ xs, y ≤ maxListQ x xs := by
  induction xs with
  | nil =>
    intro x
    exact ⟨le_refl x, by simp⟩
  | cons a rest ih =>
    intro x
    rw [maxListQ, List.foldl_cons]
    rcases ih (qMax x a) with ⟨h1, h2⟩
    rw [maxListQ] at h1 h2
    have hxa : x ≤ qMax x a := by
      rw [qMax_eq]
      exact le_max_left x a
    have haa : a ≤ qMax x a := by
      rw [qMax_eq]
      exact le_max_right x a
    refine ⟨le_trans hxa h1, ?_⟩
    intro y hy
    rcases List.mem_cons.mp hy with rfl | hy2
    · exact le_trans haa h1
    · exact h2 y hy2

theorem _height_nonneg (b : Option (List (ℚ × ℚ))) : 0 ≤ _height b := by
  match b with
  | none => exact le_refl 0
  | some [] => exact le_refl 0
  | some (p :: ps) =>
    rw [_height, qSub_eq, sub_nonneg]
    exact le_trans (minListQ_le (ps.map Prod.snd) p.2).1 (le_maxListQ (ps.map Prod.snd) p.2).1

theorem sumQ_nonneg (qs : List ℚ) (h : ∀ q ∈ qs, 0 ≤ q) : 0 ≤ sumQ qs := by
  rw [sumQ_eq]
  exact List.sum_nonneg h

theorem avgHeight_nonneg (lines : List Frag) :
    0 ≤ qDiv (sumQ (lines.map (fun l => _height l.box))) ((max lines.length 1 : Nat) : ℚ) := by
  rw [qDiv_eq]
  refine div_nonneg ?_ (by positivity)
  refine sumQ_nonneg _ ?_
  intro q hq
  rcases List.mem_map.mp hq with ⟨l, _, rfl⟩
  exact _height_nonneg l.box

/-! ## Stable insertion sort facts -/

theorem mem_sinsert (le : α → α → Bool) (a x : α) :
    ∀ (l : List α), x ∈ sinsert le a l ↔ x = a ∨ x ∈ l := by
  intro l
  induction l with
  | nil => simp [sinsert]
  | cons b rest ih =>
    rw [sinsert]
    by_cases hb : le a b = true
    · rw [if_pos hb]
      simp [List.mem_cons]
    · rw [if_neg hb]
      rw [List.mem_cons, ih, List.mem_cons]
      tauto

theorem sinsert_ne_nil (le : α → α → Bool) (a : α) (l : List α) :
    sinsert le a l ≠ [] := by
  cases l with
  | nil => simp [sinsert]
  | cons b rest =>
    rw [sinsert]
    by_cases hb : le a b = true
    · rw [if_pos hb]
      simp
    · rw [if_neg hb]
      simp

theorem ssort_eq_nil_iff (le : α → α → Bool) (l : List α) :
    ssort le l = [] ↔ l = [] := by
  cases l with
  | nil => simp [ssort]
  | cons a rest =>
    rw [ssort]
    simp [sinsert_ne_nil]

theorem sinsert_pairwise (le : α → α → Bool)
    (htot : ∀ a b, le a b = true ∨ le b a = true)
    (htrans : ∀ a b c, le a b = true → le b c = true → le a c = true) (a : α) :
    ∀ (l : List α), List.Pairwise (fun x y => le x y = true) l →
      List.Pairwise (fun x y => le x y = true) (sinsert le a l) := by
  intro l
  induction l with
  | nil =>
    intro _
    simp [sinsert]
  | cons b rest ih =>
    intro hp
    rcases List.pairwise_cons.mp hp with ⟨hb, hrest⟩
    rw [sinsert]
    by_cases hab : le a b = true
    · rw [if_pos hab]
      refine List.pairwise_cons.mpr ⟨?_, hp⟩
      intro y hy
      rcases List.mem_cons.mp hy with rfl | hy2
      · exact hab
      · exact htrans a b y hab (hb y hy2)
    · rw [if_neg hab]
      have hba : le b a = true := by
        rcases htot a b with h | h
        · exact absurd h hab
        · exact h
      refine List.pairwise_cons.mpr ⟨?_, ih hrest⟩
      intro y hy
      rcases (mem_sinsert le a y rest).mp hy with rfl | hy2
      · exact hba
      · exact hb y hy2

theorem ssort_pairwise (le : α → α → Bool)
    (htot : ∀ a b, le a b = true ∨ le b a = true)
    (htrans : ∀ a b c, le a b = true → le b c = true → le a c = true) :
    ∀ (l : List α), List.Pairwise (fun x y => le x y = true) (ssort le l) := by
  intro l
  induction l with
  | nil => simp [ssort]
  | cons a rest ih =>
    rw [ssort]
    exact sinsert_pairwise le htot htrans a (ssort le rest) ih

/-! ## The greedy sweep (for C8) -/

theorem sweepGo_spec (th : ℚ) :
    ∀ (ls cur : List Frag) (prevY : ℚ) (lc : Frag), cur ≠ [] →
      cur.getLast? = some lc → prevY = _top_y lc.box →
      List.Chain' (fun a b => qAbs (qSub (_top_y b.box) (_top_y a.box)) ≤ th) cur →
      (sweepGo th cur prevY ls).flatten = cur ++ ls ∧
        (∀ r ∈ sweepGo th cur prevY ls, r ≠ []) ∧
        (∀ r ∈ sweepGo th cur prevY ls,
          List.Chain' (fun a b => qAbs (qSub (_top_y b.box) (_top_y a.box)) ≤ th) r) ∧
        List.Chain' (fun r1 r2 => ∀ a b, r1.getLast? = some a → r2.head? = some b →
          ¬qAbs (qSub (_top_y b.box) (_top_y a.box)) ≤ th) (sweepGo th cur prevY ls) ∧
        (sweepGo th cur prevY ls).head? = some ((sweepGo th cur prevY ls).headI) ∧
        (sweepGo th cur prevY ls).headI.head? = cur.head? := by
  intro ls
  induction ls with
  | nil =>
    intro cur prevY lc hcur hlast hprev hchain
    rw [sweepGo]
    refine ⟨by simp, ?_, ?_, ?_, rfl, rfl⟩
    · intro r hr
      rw [List.mem_singleton.mp hr]
      exact hcur
    · intro r hr
      rw [List.mem_singleton.mp hr]
      exact hchain
    · exact List.chain'_singleton cur
  | cons l ls ih =>
    intro cur prevY lc hcur hlast hprev hchain
    rw [sweepGo]
    by_cases hin : qAbs (qSub (_top_y l.box) prevY) ≤ th
    · rw [if_pos hin]
      have hchain2 :
          List.Chain' (fun a b => qAbs (qSub (_top_y b.box) (_top_y a.box)) ≤ th)
            (cur ++ [l]) := by
        rw [List.chain'_append]
        refine ⟨hchain, List.chain'_singleton l, ?_⟩
        intro x hx y hy
        rw [hlast] at hx
        have hx2 : x = lc := Option.some.inj hx.symm
        have hy2 : y = l := by
          have := hy
          simp at this
          exact this.symm
        subst hx2
        subst hy2
        rw [← hprev]
        exact hin
      obtain ⟨h1, h2, h3, h4, h5, h6⟩ := ih (cur ++ [l]) (_top_y l.box) l
        (by simp) (List.getLast?_concat cur) rfl hchain2
      refine ⟨by rw [h1, List.append_assoc]; rfl, h2, h3, h4, h5, ?_⟩
      rw [h6, List.head?_append]
      rcases List.exists_cons_of_ne_nil hcur with ⟨c0, cs, rfl⟩
      rfl
    · rw [if_neg hin]
      obtain ⟨h1, h2, h3, h4, h5, h6⟩ := ih [l] (_top_y l.box) l
        (by simp) rfl rfl (List.chain'_singleton l)
      refine ⟨by rw [List.flatten_cons, h1]; rfl, ?_, ?_, ?_, rfl, rfl⟩
      · intro r hr
        rcases List.mem_cons.mp hr with rfl | hr2
        · exact hcur
        · exact h2 r hr2
      · intro r hr
        rcases List.mem_cons.mp hr with rfl | hr2
        · exact hchain
        · exact h3 r hr2
      · rw [List.chain'_cons']
        refine ⟨?_, h4⟩
        intro r0 hr0
        intro a b ha hb
        rw [hlast] at ha
        have ha2 : a = lc := Option.some.inj ha.symm
        subst ha2
        rw [h5] at hr0
        have hr02 : r0 = (sweepGo th [l] (_top_y l.box) ls).headI := Option.some.inj hr0.symm
        subst hr02
        rw [h6] at hb
        have hb2 : b = l := by
          have := hb
          simp at this
          exact this.symm
        subst hb2
        rw [← hprev]
        exact hin

/-- C8: with a non-empty fragment list, the clustering threshold is 0.8
times the average fragment height (15 when that average is zero); the
fragments are sorted by top-y ascending and partitioned by a single greedy
sweep into non-empty rows in which each fragment lies within the threshold
of the row's most recently added fragment, and each new row starts exactly
when the incoming fragment exceeds the threshold from the previous row's
last fragment. -/
theorem claim_C8 (lines : List Frag) (hne : lines ≠ []) :
    ((qDiv (sumQ (lines.map (fun l => _height l.box))) ((max lines.length 1 : Nat) : ℚ) = 0 →
        rowThreshold lines = 15) ∧
      (qDiv (sumQ (lines.map (fun l => _height l.box))) ((max lines.length 1 : Nat) : ℚ) ≠ 0 →
        rowThreshold lines =
          qMul (qDiv (sumQ (lines.map (fun l => _height l.box)))
            ((max lines.length 1 : Nat) : ℚ)) (mkRat 8 10))) ∧
      List.Pairwise (fun a b => fragYLe a b = true) (ssort fragYLe lines) ∧
      (_cluster_rows lines).flatten = ssort fragYLe lines ∧
      (∀ r ∈ _cluster_rows lines, r ≠ []) ∧
      (∀ r ∈ _cluster_rows lines,
        List.Chain' (fun a b =>
          qAbs (qSub (_top_y b.box) (_top_y a.box)) ≤ rowThreshold lines) r) ∧
      List.Chain' (fun r1 r2 => ∀ a b, r1.getLast? = some a → r2.head? = some b →
        ¬qAbs (qSub (_top_y b.box) (_top_y a.box)) ≤ rowThreshold lines)
        (_cluster_rows lines) := by
  have hthr : (qDiv (sumQ (lines.map (fun l => _height l.box)))
        ((max lines.length 1 : Nat) : ℚ) = 0 → rowThreshold lines = 15) ∧
      (qDiv (sumQ (lines.map (fun l => _height l.box)))
        ((max lines.length 1 : Nat) : ℚ) ≠ 0 → rowThreshold lines =
        qMul (qDiv (sumQ (lines.map (fun l => _height l.box)))
          ((max lines.length 1 : Nat) : ℚ)) (mkRat 8 10)) := by
    constructor
    · intro h0
      rw [rowThreshold]
      rw [if_neg (by rw [h0]; exact lt_irrefl 0)]
    · intro h0
      rw [rowThreshold]
      rw [if_pos (lt_of_le_of_ne (avgHeight_nonneg lines) (Ne.symm h0))]
  have hsorted : List.Pairwise (fun a b => fragYLe a b = true) (ssort fragYLe lines) := by
    refine ssort_pairwise fragYLe ?_ ?_ lines
    · intro a b
      rw [fragYLe, fragYLe]
      rcases le_total (_top_y a.box) (_top_y b.box) with h | h
      · exact Or.inl (by simpa using h)
      · exact Or.inr (by simpa using h)
    · intro a b c h1 h2
      rw [fragYLe] at *
      simp only [decide_eq_true_eq] at *
      exact le_trans h1 h2
  rcases List.exists_cons_of_ne_nil
    ((not_iff_not.mpr (ssort_eq_nil_iff fragYLe lines)).mpr hne) with ⟨l0, rest, hss⟩
  have hrows : _cluster_rows lines = sweepGo (rowThreshold lines) [l0] (_top_y l0.box) rest := by
    rw [_cluster_rows, if_neg hne, hss]
  obtain ⟨h1, h2, h3, h4, -, -⟩ := sweepGo_spec (rowThreshold lines) rest [l0]
    (_top_y l0.box) l0 (by simp) rfl rfl (List.chain'_singleton l0)
  refine ⟨hthr, hsorted, ?_, ?_, ?_, ?_⟩
  · rw [hrows, h1, hss]
    rfl
  · rw [hrows]
    exact h2
  · rw [hrows]
    exact h3
  · rw [hrows]
    exact h4

/-- C8, witness: three fragments, two close in y and one distant, with the
average height positive — instantiating the clustering theorem. -/
theorem claim_C8_witness :
    ((qDiv (sumQ (([⟨"a", 1, some [(0, 0), (0, 10)]⟩, ⟨"b", 1, some [(0, 4), (0, 14)]⟩,
          ⟨"c", 1, some [(0, 60), (0, 70)]⟩] : List Frag).map (fun l => _height l.box)))
        ((max ([⟨"a", 1, some [(0, 0), (0, 10)]⟩, ⟨"b", 1, some [(0, 4), (0, 14)]⟩,
          ⟨"c", 1, some [(0, 60), (0, 70)]⟩] : List Frag).length 1 : Nat) : ℚ) = 0 →
        rowThreshold [⟨"a", 1, some [(0, 0), (0, 10)]⟩, ⟨"b", 1, some [(0, 4), (0, 14)]⟩,
          ⟨"c", 1, some [(0, 60), (0, 70)]⟩] = 15) ∧
      (qDiv (sumQ (([⟨"a", 1, some [(0, 0), (0, 10)]⟩, ⟨"b", 1, some [(0, 4), (0, 14)]⟩,
          ⟨"c", 1, some [(0, 60), (0, 70)]⟩] : List Frag).map (fun l => _height l.box)))
        ((max ([⟨"a", 1, some [(0, 0), (0, 10)]⟩, ⟨"b", 1, some [(0, 4), (0, 14)]⟩,
          ⟨"c", 1, some [(0, 60), (0, 70)]⟩] : List Frag).length 1 : Nat) : ℚ) ≠ 0 →
        rowThreshold [⟨"a", 1, some [(0, 0), (0, 10)]⟩, ⟨"b", 1, some [(0, 4), (0, 14)]⟩,
          ⟨"c", 1, some [(0, 60), (0, 70)]⟩] =
          qMul (qDiv (sumQ (([⟨"a", 1, some [(0, 0), (0, 10)]⟩,
            ⟨"b", 1, some [(0, 4), (0, 14)]⟩,
            ⟨"c", 1, some [(0, 60), (0, 70)]⟩] : List Frag).map (fun l => _height l.box)))
            ((max ([⟨"a", 1, some [(0, 0), (0, 10)]⟩, ⟨"b", 1, some [(0, 4), (0, 14)]⟩,
              ⟨"c", 1, some [(0, 60), (0, 70)]⟩] : List Frag).length 1 : Nat) : ℚ))
            (mkRat 8 10))) ∧
      List.Pairwise (fun a b => fragYLe a b = true)
        (ssort fragYLe [⟨"a", 1, some [(0, 0), (0, 10)]⟩, ⟨"b", 1, some [(0, 4), (0, 14)]⟩,
          ⟨"c", 1, some [(0, 60), (0, 70)]⟩]) ∧
      (_cluster_rows [⟨"a", 1, some [(0, 0), (0, 10)]⟩, ⟨"b", 1, some [(0, 4), (0, 14)]⟩,
        ⟨"c", 1, some [(0, 60), (0, 70)]⟩]).flatten =
        ssort fragYLe [⟨"a", 1, some [(0, 0), (0, 10)]⟩, ⟨"b", 1, some [(0, 4), (0, 14)]⟩,
          ⟨"c", 1, some [(0, 60), (0, 70)]⟩] ∧
      (∀ r ∈ _cluster_rows [⟨"a", 1, some [(0, 0), (0, 10)]⟩, ⟨"b", 1, some [(0, 4), (0, 14)]⟩,
        ⟨"c", 1, some [(0, 60), (0, 70)]⟩], r ≠ []) ∧
      (∀ r ∈ _cluster_rows [⟨"a", 1, some [(0, 0), (0, 10)]⟩, ⟨"b", 1, some [(0, 4), (0, 14)]⟩,
        ⟨"c", 1, some [(0, 60), (0, 70)]⟩],
        List.Chain' (fun a b => qAbs (qSub (_top_y b.box) (_top_y a.box)) ≤
          rowThreshold [⟨"a", 1, some [(0, 0), (0, 10)]⟩, ⟨"b", 1, some [(0, 4), (0, 14)]⟩,
            ⟨"c", 1, some [(0, 60), (0, 70)]⟩]) r) ∧
      List.Chain' (fun r1 r2 => ∀ a b, r1.getLast? = some a → r2.head? = some b →
        ¬qAbs (qSub (_top_y b.box) (_top_y a.box)) ≤
          rowThreshold [⟨"a", 1, some [(0, 0), (0, 10)]⟩, ⟨"b", 1, some [(0, 4), (0, 14)]⟩,
            ⟨"c", 1, some [(0, 60), (0, 70)]⟩])
        (_cluster_rows [⟨"a", 1, some [(0, 0), (0, 10)]⟩, ⟨"b", 1, some [(0, 4), (0, 14)]⟩,
          ⟨"c", 1, some [(0, 60), (0, 70)]⟩]) :=
  claim_C8 [⟨"a", 1, some [(0, 0), (0, 10)]⟩, ⟨"b", 1, some [(0, 4), (0, 14)]⟩,
    ⟨"c", 1, some [(0, 60), (0, 70)]⟩] (by decide)

/-! ## Column segmentation (for C9) -/

theorem split_columns_of_ssort_eq (row row2 : List Frag) (x : ℚ)
    (h : ssort fragXLe row = ssort fragXLe row2) :
    _split_columns row x = _split_columns row2 x := by
  rw [_split_columns, _split_columns, h]

/-- C9: the date anchor is the minimum left-x over fragments whose text is
a 10-character token containing the separator `-` (the source's date-token
test), defaulting to 250 when no such fragment exists; each row, sorted by
left-x, splits into the description zone (strictly left of the anchor) and
the columns zone (at or right of it); and a row contributes an item block
exactly when both zones are non-empty. -/
theorem claim_C9 (all_lines : List Frag) (hne : all_lines ≠ []) :
    (dateCandidates all_lines = [] → dateAnchor all_lines = 250) ∧
      (dateCandidates all_lines ≠ [] → dateAnchor all_lines ∈ dateCandidates all_lines ∧
        ∀ x ∈ dateCandidates all_lines, dateAnchor all_lines ≤ x) ∧
      (∀ row ∈ _cluster_rows all_lines, ∀ l ∈ ssort fragXLe row,
        (_left_x l.box < dateAnchor all_lines →
          l.text ∈ (_split_columns row (dateAnchor all_lines)).1) ∧
        (¬_left_x l.box < dateAnchor all_lines →
          l.text ∈ (_split_columns row (dateAnchor all_lines)).2)) ∧
      (∀ row ∈ _cluster_rows all_lines,
        ((∃ blk ∈ run_ocr_blocks all_lines,
            blk.description = joinSp (_split_columns row (dateAnchor all_lines)).1 ∧
            blk.columns = (_split_columns row (dateAnchor all_lines)).2 ∧
            blk.lineFrags = ssort fragXLe row) ↔
          ((_split_columns row (dateAnchor all_lines)).1 ≠ [] ∧
            (_split_columns row (dateAnchor all_lines)).2 ≠ []))) := by
  refine ⟨?_, ?_, ?_, ?_⟩
  · intro h
    rw [dateAnchor, h]
  · intro h
    rcases List.exists_cons_of_ne_nil h with ⟨c, cs, hc⟩
    rw [dateAnchor, hc]
    dsimp only
    constructor
    · rcases minListQ_mem cs c with heq | hmem
      · rw [heq]
        exact List.mem_cons_self c cs
      · exact List.mem_cons.mpr (Or.inr hmem)
    · intro x hx
      rcases List.mem_cons.mp hx with rfl | hx2
      · exact (minListQ_le cs x).1
      · exact (minListQ_le cs c).2 x hx2
  · intro row _ l hl
    rw [_split_columns]
    dsimp only
    constructor
    · intro hlt
      exact List.mem_map.mpr ⟨l, List.mem_filter.mpr ⟨hl, by simpa using hlt⟩, rfl⟩
    · intro hge
      refine List.mem_map.mpr ⟨l, List.mem_filter.mpr ⟨hl, ?_⟩, rfl⟩
      simpa using hge
  · intro row hrow
    rw [run_ocr_blocks, if_neg hne]
    constructor
    · rintro ⟨blk, hblk, hdesc, hcols, hfrags⟩
      rcases List.mem_filterMap.mp hblk with ⟨row2, hrow2, heq⟩
      dsimp only at heq
      by_cases h1 : ((_split_columns row2 (dateAnchor all_lines)).1 = [] ||
          (_split_columns row2 (dateAnchor all_lines)).2 = []) = true
      · rw [if_pos h1] at heq
        exact absurd heq (by simp)
      · rw [if_neg h1] at heq
        have hb := Option.some.inj heq
        have hfr : blk.lineFrags = ssort fragXLe row2 := by rw [← hb]
        have hss : ssort fragXLe row2 = ssort fragXLe row := by
          rw [← hfr, hfrags]
        have hsp := split_columns_of_ssort_eq row2 row (dateAnchor all_lines) hss
        rw [hsp] at h1
        simp only [Bool.or_eq_true, decide_eq_true_eq, not_or] at h1
        exact ⟨h1.1, h1.2⟩
    · rintro ⟨hd, hc⟩
      refine ⟨⟨joinSp ((_split_columns row (dateAnchor all_lines)).1 ++
          (_split_columns row (dateAnchor all_lines)).2),
          joinSp (_split_columns row (dateAnchor all_lines)).1,
          (_split_columns row (dateAnchor all_lines)).2, ssort fragXLe row⟩,
        ?_, rfl, rfl, rfl⟩
      refine List.mem_filterMap.mpr ⟨row, hrow, ?_⟩
      dsimp only
      rw [if_neg (by simp [hd, hc])]

/-- C9, witness: one row containing a date token at x = 100 and a
description fragment at x = 10 — the anchor is the date token's left-x, the
row splits into a non-empty description and a non-empty columns zone, and
it yields a block. -/
theorem claim_C9_witness :
    (dateCandidates [⟨"Desc frag", 1, some [(10, 0), (10, 10)]⟩,
        ⟨"12-03-2024", 1, some [(100, 0), (100, 10)]⟩] = [] →
      dateAnchor [⟨"Desc frag", 1, some [(10, 0), (10, 10)]⟩,
        ⟨"12-03-2024", 1, some [(100, 0), (100, 10)]⟩] = 250) ∧
      (dateCandidates [⟨"Desc frag", 1, some [(10, 0), (10, 10)]⟩,
          ⟨"12-03-2024", 1, some [(100, 0), (100, 10)]⟩] ≠ [] →
        dateAnchor [⟨"Desc frag", 1, some [(10, 0), (10, 10)]⟩,
            ⟨"12-03-2024", 1, some [(100, 0), (100, 10)]⟩] ∈
          dateCandidates [⟨"Desc frag", 1, some [(10, 0), (10, 10)]⟩,
            ⟨"12-03-2024", 1, some [(100, 0), (100, 10)]⟩] ∧
        ∀ x ∈ dateCandidates [⟨"Desc frag", 1, some [(10, 0), (10, 10)]⟩,
            ⟨"12-03-2024", 1, some [(100, 0), (100, 10)]⟩],
          dateAnchor [⟨"Desc frag", 1, some [(10, 0), (10, 10)]⟩,
            ⟨"12-03-2024", 1, some [(100, 0), (100, 10)]⟩] ≤ x) ∧
      (∀ row ∈ _cluster_rows [⟨"Desc frag", 1, some [(10, 0), (10, 10)]⟩,
          ⟨"12-03-2024", 1, some [(100, 0), (100, 10)]⟩], ∀ l ∈ ssort fragXLe row,
        (_left_x l.box < dateAnchor [⟨"Desc frag", 1, some [(10, 0), (10, 10)]⟩,
            ⟨"12-03-2024", 1, some [(100, 0), (100, 10)]⟩] →
          l.text ∈ (_split_columns row (dateAnchor [⟨"Desc frag", 1, some [(10, 0), (10, 10)]⟩,
            ⟨"12-03-2024", 1, some [(100, 0), (100, 10)]⟩])).1) ∧
        (¬_left_x l.box < dateAnchor [⟨"Desc frag", 1, some [(10, 0), (10, 10)]⟩,
            ⟨"12-03-2024", 1, some [(100, 0), (100, 10)]⟩] →
          l.text ∈ (_split_columns row (dateAnchor [⟨"Desc frag", 1, some [(10, 0), (10, 10)]⟩,
            ⟨"12-03-2024", 1, some [(100, 0), (100, 10)]⟩])).2)) ∧
      (∀ row ∈ _cluster_rows [⟨"Desc frag", 1, some [(10, 0), (10, 10)]⟩,
          ⟨"12-03-2024", 1, some [(100, 0), (100, 10)]⟩],
        ((∃ blk ∈ run_ocr_blocks [⟨"Desc frag", 1, some [(10, 0), (10, 10)]⟩,
            ⟨"12-03-2024", 1, some [(100, 0), (100, 10)]⟩],
            blk.description = joinSp (_split_columns row
              (dateAnchor [⟨"Desc frag", 1, some [(10, 0), (10, 10)]⟩,
                ⟨"12-03-2024", 1, some [(100, 0), (100, 10)]⟩])).1 ∧
            blk.columns = (_split_columns row
              (dateAnchor [⟨"Desc frag", 1, some [(10, 0), (10, 10)]⟩,
                ⟨"12-03-2024", 1, some [(100, 0), (100, 10)]⟩])).2 ∧
            blk.lineFrags = ssort fragXLe row) ↔
          ((_split_columns row (dateAnchor [⟨"Desc frag", 1, some [(10, 0), (10, 10)]⟩,
              ⟨"12-03-2024", 1, some [(100, 0), (100, 10)]⟩])).1 ≠ [] ∧
            (_split_columns row (dateAnchor [⟨"Desc frag", 1, some [(10, 0), (10, 10)]⟩,
              ⟨"12-03-2024", 1, some [(100, 0), (100, 10)]⟩])).2 ≠ []))) :=
  claim_C9 [⟨"Desc frag", 1, some [(10, 0), (10, 10)]⟩,
    ⟨"12-03-2024", 1, some [(100, 0), (100, 10)]⟩] (by decide)

end MedBill
